import Mathlib

/-!
Shallow embedding of the forecasto session-scoped editing and
conflict-resolution engine (`forecasto/services/session_service.py`,
`forecasto/services/record_service.py`, `forecasto/models/*.py`).

Conventions of the embedding:
* Database rows become Lean structures; the tables become lists inside `DB`.
* `datetime.utcnow()` is modelled by an explicit `now : Nat` argument;
  all timestamps are `Nat`.
* Python attribute values occurring in snapshots are modelled by `Val`:
  `Val.vs` is a string-typed value, `Val.vt` a datetime/date-typed value
  (identifying a datetime with its ISO string, since `isoformat` /
  `fromisoformat` round-trip), `Val.vnone` is `None`.
* A snapshot dict is an association list `Smap`; `dict.get` with and
  without default and dict truthiness are modelled explicitly.
* Raised exceptions become the `Err` inductive returned through `Except`.
-/

namespace Forecasto

/-- A Python value stored in a snapshot or record field. -/
inductive Val where
  | vs (s : String)
  | vt (t : Nat)
  | vnone
deriving DecidableEq, Repr

/-- Python truthiness of a `Val`: `None` and `""` are falsy; a datetime's
ISO string is never empty, hence always truthy. -/
def Val.truthy : Val → Bool
  | .vs s => s ≠ ""
  | .vt _ => true
  | .vnone => false

/-- Interpret a value as a datetime, as `fromisoformat` does on the values
the code's snapshot writers produce. -/
def Val.asTime : Val → Option Nat
  | .vt t => some t
  | _ => none

/-- A snapshot dict: field name to value. -/
abbrev Smap := List (String × Val)

/-- Python `dict.get(k)` (no default): `None` when the key is absent. -/
def Smap.get (s : Smap) (k : String) : Val :=
  match s.lookup k with
  | some v => v
  | none => Val.vnone

/-- Python `dict.get(k, d)`: the default is used only when the key is
absent, not when the stored value is `None`. -/
def Smap.getD (s : Smap) (k : String) (d : Val) : Val :=
  match s.lookup k with
  | some v => v
  | none => d

/-- Set one key of a dict (replace if present, append otherwise). -/
def Smap.set (s : Smap) (k : String) (v : Val) : Smap :=
  match s with
  | [] => [(k, v)]
  | (k', v') :: rest => if k' = k then (k, v) :: rest else (k', v') :: Smap.set rest k v

/-- Python `dict.update(m)`: merge `m` into `s`, overriding existing keys. -/
def Smap.update (s : Smap) (m : Smap) : Smap :=
  m.foldl (fun acc kv => Smap.set acc kv.1 kv.2) s

/-- A user row (`models/user.py`), restricted to the fields the engine reads. -/
structure User where
  id : String
  name : String
deriving DecidableEq, Repr

/-- A record row (`models/record.py`).  Data columns hold `Val`; the
versioning, audit and soft-delete columns are explicit. -/
structure Record where
  id : String
  workspace_id : String
  area : Val
  type : Val
  account : Val
  reference : Val
  note : Val
  date_cashflow : Val
  date_offer : Val
  amount : Val
  vat : Val
  total : Val
  stage : Val
  owner : Val
  nextaction : Val
  transaction_id : Val
  bank_account_id : Val
  project_code : Val
  version : Nat
  created_by : Option String
  updated_by : Option String
  created_at : Nat
  updated_at : Nat
  deleted_at : Option Nat
  deleted_by : Option String
deriving DecidableEq, Repr

/-- A version-history row (`models/record.py`, `RecordVersion`). -/
structure RecordVersion where
  id : String
  record_id : String
  version : Nat
  snapshot : Smap
  changed_at : Nat
  changed_by : Option String
  session_id : Option String
  change_type : String
  change_note : Option String
deriving DecidableEq, Repr

/-- A message row (`models/session.py`, `SessionMessage`). -/
structure Message where
  sequence : Nat
  role : String
  content : String
  created_at : Nat
deriving DecidableEq, Repr

/-- An operation row (`models/session.py`, `SessionOperation`). -/
structure Operation where
  sequence : Nat
  operation_type : String
  record_id : String
  area : Val
  before_snapshot : Option Smap
  after_snapshot : Smap
  from_area : Option String
  to_area : Option String
  is_undone : Bool
  undone_at : Option Nat
deriving DecidableEq, Repr

/-- A draft-overlay row (`models/session.py`, `SessionRecordLock`);
unique per (session, record). -/
structure Lock where
  record_id : String
  draft_snapshot : Smap
  base_version : Nat
  locked_at : Nat
deriving DecidableEq, Repr

/-- The per-type counters of `Session.changes_summary` (the JSON column is
initialised with exactly these four keys). -/
structure ChangesSummary where
  created : Nat
  updated : Nat
  deleted : Nat
  transferred : Nat
deriving DecidableEq, Repr

/-- A session row (`models/session.py`, `Session`) together with its
child rows (messages, operations, locks), which the service always
queries by this session's id. -/
structure Session where
  id : String
  workspace_id : String
  user_id : String
  title : Option String
  status : String
  created_at : Nat
  last_activity : Nat
  committed_at : Option Nat
  discarded_at : Option Nat
  commit_message : Option String
  changes_count : Nat
  changes_summary : ChangesSummary
  messages : List Message
  ops : List Operation
  locks : List Lock
deriving DecidableEq, Repr

/-- The shared store: the records table, the version-history table and the
users table. -/
structure DB where
  records : List Record
  versions : List RecordVersion
  users : List User
deriving DecidableEq, Repr

/-- `select(Record).where(Record.id == rid)` with `scalar_one_or_none`. -/
def findRecord (db : DB) (rid : String) : Option Record :=
  db.records.find? (fun r => r.id = rid)

/-- `select(User).where(User.id == uid)` with `scalar_one_or_none`. -/
def findUser (db : DB) (uid : String) : Option User :=
  db.users.find? (fun u => u.id = uid)

/-- Mutating the (unique) record with id `rid` in place. -/
def updateRecordStore (db : DB) (rid : String) (f : Record → Record) : DB :=
  { db with records := db.records.map (fun r => if r.id = rid then f r else r) }

/-- `await self.db.delete(record)`: remove the row from the table. -/
def deleteRecordStore (db : DB) (rid : String) : DB :=
  { db with records := db.records.filter (fun r => r.id ≠ rid) }

/-- `ConflictInfo` (`schemas/session.py`): one detected conflict. -/
structure ConflictInfo where
  record_id : String
  area : Val
  your_version : Smap
  current_version : Smap
  modified_by_id : String
  modified_by_name : String
  modified_at : Nat
deriving DecidableEq, Repr

/-- The errors the engine raises (`forecasto/exceptions.py`):
`SessionNotActiveException`, `ValidationException("Nothing to undo")`,
`ValidationException("Nothing to redo")`, `ConflictException` and
`NotFoundException`. -/
inductive Err where
  | sessionNotActive
  | nothingToUndo
  | nothingToRedo
  | conflict (conflicts : List ConflictInfo)
  | notFound (what : String)
deriving DecidableEq, Repr

/-- Interpret a value as an optional string (generic `setattr` of a value
onto a string-typed nullable column). -/
def Val.asStr : Val → Option String
  | .vs s => some s
  | _ => none

namespace SessionService

/-- `SessionService._record_to_snapshot`: project the fourteen data fields
(dates via `isoformat` when truthy, amounts via `str`, both modelled as
the identity on `Val`). -/
def record_to_snapshot (r : Record) : Smap :=
  [("area", r.area), ("type", r.type), ("account", r.account),
   ("reference", r.reference), ("note", r.note),
   ("date_cashflow", if r.date_cashflow.truthy then r.date_cashflow else Val.vnone),
   ("date_offer", if r.date_offer.truthy then r.date_offer else Val.vnone),
   ("amount", r.amount), ("vat", r.vat), ("total", r.total),
   ("stage", r.stage), ("transaction_id", r.transaction_id),
   ("bank_account_id", r.bank_account_id), ("project_code", r.project_code)]

/-- One step of `SessionService._apply_snapshot`: `setattr(record, key, value)`
guarded by `hasattr` and the exclusion of `id`, `workspace_id`, `version`.
Since a key names at most one attribute, the dispatch is written as a single
record literal whose field `f` receives `v` exactly when `k` names `f`.
The dispatch covers the record attributes that occur as keys in the
snapshots the code produces; unknown keys fail `hasattr` and are skipped. -/
def applySnapshotKey (r : Record) (k : String) (v : Val) : Record :=
  if k = "id" ∨ k = "workspace_id" ∨ k = "version" then r
  else { r with
    area := if k = "area" then v else r.area,
    type := if k = "type" then v else r.type,
    account := if k = "account" then v else r.account,
    reference := if k = "reference" then v else r.reference,
    note := if k = "note" then v else r.note,
    date_cashflow := if k = "date_cashflow" then v else r.date_cashflow,
    date_offer := if k = "date_offer" then v else r.date_offer,
    amount := if k = "amount" then v else r.amount,
    vat := if k = "vat" then v else r.vat,
    total := if k = "total" then v else r.total,
    stage := if k = "stage" then v else r.stage,
    owner := if k = "owner" then v else r.owner,
    nextaction := if k = "nextaction" then v else r.nextaction,
    transaction_id := if k = "transaction_id" then v else r.transaction_id,
    bank_account_id := if k = "bank_account_id" then v else r.bank_account_id,
    project_code := if k = "project_code" then v else r.project_code,
    deleted_at := if k = "deleted_at" then v.asTime else r.deleted_at,
    deleted_by := if k = "deleted_by" then v.asStr else r.deleted_by }

/-- `SessionService._apply_snapshot`: iterate over the snapshot's items. -/
def apply_snapshot (r : Record) (s : Smap) : Record :=
  s.foldl (fun acc kv => applySnapshotKey acc kv.1 kv.2) r

/-- The message with the highest sequence
(`ORDER BY sequence DESC LIMIT 1`). -/
def lastMessageBySeq (msgs : List Message) : Option Message :=
  msgs.foldl (fun acc m =>
    match acc with
    | none => some m
    | some b => if b.sequence < m.sequence then some m else acc) none

/-- The operation with the highest sequence
(`ORDER BY sequence DESC LIMIT 1`). -/
def lastOpBySeq (ops : List Operation) : Option Operation :=
  ops.foldl (fun acc o =>
    match acc with
    | none => some o
    | some b => if b.sequence < o.sequence then some o else acc) none

/-- The non-undone operation with the highest sequence
(`WHERE is_undone == False ORDER BY sequence DESC LIMIT 1`). -/
def lastNonUndone (ops : List Operation) : Option Operation :=
  ops.foldl (fun acc o =>
    if o.is_undone then acc
    else match acc with
      | none => some o
      | some b => if b.sequence < o.sequence then some o else acc) none

/-- The undone operation with the lowest sequence
(`WHERE is_undone == True ORDER BY sequence ASC LIMIT 1`). -/
def firstUndone (ops : List Operation) : Option Operation :=
  ops.foldl (fun acc o =>
    if o.is_undone then
      match acc with
      | none => some o
      | some b => if o.sequence < b.sequence then some o else acc
    else acc) none

/-- `(last_message.sequence + 1) if last_message else 1`. -/
def nextMsgSeq (msgs : List Message) : Nat :=
  match lastMessageBySeq msgs with
  | some m => m.sequence + 1
  | none => 1

/-- `SessionService.add_message`. -/
def add_message (sess : Session) (content : String) (role : String) (now : Nat) :
    Except Err (Session × Message) :=
  if sess.status ≠ "active" then .error .sessionNotActive
  else
    let msg : Message := ⟨nextMsgSeq sess.messages, role, content, now⟩
    .ok ({ sess with messages := sess.messages ++ [msg], last_activity := now }, msg)

/-- Bump one counter of `changes_summary` according to the operation type. -/
def bumpSummary (s : ChangesSummary) (operation_type : String) : ChangesSummary :=
  if operation_type = "create" then { s with created := s.created + 1 }
  else if operation_type = "update" then { s with updated := s.updated + 1 }
  else if operation_type = "delete" then { s with deleted := s.deleted + 1 }
  else if operation_type = "transfer" then { s with transferred := s.transferred + 1 }
  else s

/-- `SessionService.add_operation`. -/
def add_operation (sess : Session) (operation_type : String) (record : Record)
    (before_snapshot : Option Smap) (after_snapshot : Smap)
    (from_area to_area : Option String) (now : Nat) :
    Except Err (Session × Operation) :=
  if sess.status ≠ "active" then .error .sessionNotActive
  else
    let next := match lastOpBySeq sess.ops with
      | some o => o.sequence + 1
      | none => 1
    let op : Operation :=
      ⟨next, operation_type, record.id, record.area, before_snapshot, after_snapshot,
       from_area, to_area, false, none⟩
    .ok ({ sess with
            ops := sess.ops ++ [op],
            changes_summary := bumpSummary sess.changes_summary operation_type,
            changes_count := sess.changes_count + 1,
            last_activity := now }, op)

/-- `SessionService.undo_operation`. -/
def undo_operation (db : DB) (sess : Session) (user : User) (now : Nat) :
    Except Err (DB × Session) :=
  if sess.status ≠ "active" then .error .sessionNotActive
  else match lastNonUndone sess.ops with
  | none => .error .nothingToUndo
  | some op =>
    let record? := findRecord db op.record_id
    let db' :=
      if op.operation_type = "create" then
        match record? with
        | some _ => updateRecordStore db op.record_id
            (fun r => { r with deleted_at := some now, deleted_by := some user.id })
        | none => db
      else if op.operation_type = "delete" then
        match record? with
        | some _ => updateRecordStore db op.record_id
            (fun r => { r with deleted_at := none, deleted_by := none })
        | none => db
      else if op.operation_type = "update" ∨ op.operation_type = "transfer" then
        match record?, op.before_snapshot with
        | some _, some s =>
          if s = [] then db
          else updateRecordStore db op.record_id (fun r => apply_snapshot r s)
        | _, _ => db
      else db
    let sess1 := { sess with ops := sess.ops.map (fun o =>
      if o.sequence = op.sequence then { o with is_undone := true, undone_at := some now }
      else o) }
    match add_message sess1 ("Undo: " ++ op.operation_type ++ " operation reverted") "system" now with
    | .error e => .error e
    | .ok (sess2, _) => .ok (db', { sess2 with last_activity := now })

/-- `SessionService.redo_operation`. -/
def redo_operation (db : DB) (sess : Session) (user : User) (now : Nat) :
    Except Err (DB × Session) :=
  if sess.status ≠ "active" then .error .sessionNotActive
  else match firstUndone sess.ops with
  | none => .error .nothingToRedo
  | some op =>
    let record? := findRecord db op.record_id
    let db' :=
      if op.operation_type = "create" then
        match record? with
        | some _ => updateRecordStore db op.record_id
            (fun r => { r with deleted_at := none, deleted_by := none })
        | none => db
      else if op.operation_type = "delete" then
        match record? with
        | some _ => updateRecordStore db op.record_id
            (fun r => { r with deleted_at := some now, deleted_by := some user.id })
        | none => db
      else if op.operation_type = "update" ∨ op.operation_type = "transfer" then
        match record? with
        | some _ => updateRecordStore db op.record_id
            (fun r => apply_snapshot r op.after_snapshot)
        | none => db
      else db
    let sess1 := { sess with ops := sess.ops.map (fun o =>
      if o.sequence = op.sequence then { o with is_undone := false, undone_at := none }
      else o) }
    match add_message sess1 ("Redo: " ++ op.operation_type ++ " operation reapplied") "system" now with
    | .error e => .error e
    | .ok (sess2, _) => .ok (db', { sess2 with last_activity := now })

/-- `SessionService.check_conflicts`: one `ConflictInfo` per lock whose
record exists and whose live version differs from the lock's base version. -/
def check_conflicts (db : DB) (sess : Session) : List ConflictInfo :=
  sess.locks.filterMap (fun lock =>
    match findRecord db lock.record_id with
    | some record =>
      if record.version ≠ lock.base_version then
        let modifier : Option User :=
          match record.updated_by with
          | some uid => findUser db uid
          | none => none
        some ⟨record.id, record.area, lock.draft_snapshot, record_to_snapshot record,
              (match modifier with | some m => m.id | none => "unknown"),
              (match modifier with | some m => m.name | none => "Unknown User"),
              record.updated_at⟩
      else none
    | none => none)

/-- `SessionService._add_system_message` (no status check, no
`last_activity` touch). -/
def add_system_message (sess : Session) (content : String) (now : Nat) :
    Session × Message :=
  let msg : Message := ⟨nextMsgSeq sess.messages, "system", content, now⟩
  ({ sess with messages := sess.messages ++ [msg] }, msg)

/-- The record mutation of the `commit_session` loop: apply the draft onto
the live record, bump `version`, stamp `updated_by` / `updated_at`. -/
def commitTransform (user : User) (now : Nat) (draft : Smap) (r : Record) : Record :=
  let r1 := apply_snapshot r draft
  { r1 with version := r1.version + 1, updated_by := some user.id, updated_at := now }

/-- One iteration of the `commit_session` loop: mutate the lock's record if
it still exists. -/
def commitApply (user : User) (now : Nat) (d : DB) (lock : Lock) : DB :=
  match findRecord d lock.record_id with
  | some _ => updateRecordStore d lock.record_id (commitTransform user now lock.draft_snapshot)
  | none => d

/-- `SessionService.commit_session`.  Returns the new store, the committed
session and `changes_committed`. -/
def commit_session (db : DB) (sess : Session) (user : User)
    (message : Option String) (now : Nat) :
    Except Err (DB × Session × Nat) :=
  if sess.status ≠ "active" then .error .sessionNotActive
  else
    let conflicts := check_conflicts db sess
    if conflicts ≠ [] then .error (.conflict conflicts)
    else
      let db' := sess.locks.foldl (commitApply user now) db
      let commitText := match message with
        | some m => if m = "" then "No message" else m
        | none => "No message"
      let sess1 := (add_system_message sess ("Session committed: " ++ commitText) now).1
      let sess2 := { sess1 with
        status := "committed", committed_at := some now, commit_message := message }
      .ok (db', sess2, sess.changes_count)

/-- `ConflictResolution` (`schemas/session.py`). -/
structure ConflictResolution where
  record_id : String
  strategy : String
  manual_values : Option Smap
deriving DecidableEq, Repr

/-- Python truthiness of `resolution.manual_values` (`None` and the empty
dict are falsy). -/
def manualTruthy : Option Smap → Bool
  | some m => m ≠ []
  | none => false

/-- One iteration of the `resolve_conflicts` loop: mutate the lock named by
`res` (locks are unique per record id by the table's unique constraint). -/
def applyResolution (db : DB) (locks : List Lock) (res : ConflictResolution) :
    List Lock :=
  match locks.find? (fun l => l.record_id == res.record_id), findRecord db res.record_id with
  | some _, some record =>
    locks.map (fun l =>
      if l.record_id = res.record_id then
        let draft :=
          if res.strategy = "keep_theirs" then record_to_snapshot record
          else if res.strategy = "manual" ∧ manualTruthy res.manual_values then
            Smap.update l.draft_snapshot (res.manual_values.getD [])
          else l.draft_snapshot
        { l with draft_snapshot := draft, base_version := record.version }
      else l)
  | _, _ => locks

/-- `SessionService.resolve_conflicts`: mutate the named locks, then commit. -/
def resolve_conflicts (db : DB) (sess : Session) (user : User)
    (resolutions : List ConflictResolution) (commit_message : Option String)
    (now : Nat) : Except Err (DB × Session × Nat) :=
  if sess.status ≠ "active" then .error .sessionNotActive
  else
    let locks' := resolutions.foldl (fun lks res => applyResolution db lks res) sess.locks
    commit_session db { sess with locks := locks' } user commit_message now

/-- One iteration of the first `discard_session` loop: hard-delete the
record created in this session if it still exists. -/
def discardDelete (d : DB) (o : Operation) : DB :=
  match findRecord d o.record_id with
  | some _ => deleteRecordStore d o.record_id
  | none => d

/-- The record mutation of the second `discard_session` loop: re-apply the
before snapshot, un-deleting the record if the operation was a delete. -/
def discardTransform (o : Operation) (s : Smap) (r : Record) : Record :=
  let r1 := apply_snapshot r s
  if o.operation_type = "delete" then { r1 with deleted_at := none, deleted_by := none }
  else r1

/-- One iteration of the second `discard_session` loop: restore the record's
before snapshot when the operation carries one and the record exists. -/
def discardRestore (d : DB) (o : Operation) : DB :=
  match o.before_snapshot with
  | some s =>
    if s = [] then d
    else match findRecord d o.record_id with
      | some _ => updateRecordStore d o.record_id (discardTransform o s)
      | none => d
  | none => d

/-- `SessionService.discard_session`. -/
def discard_session (db : DB) (sess : Session) (now : Nat) :
    Except Err (DB × Session × Nat) :=
  if sess.status ≠ "active" then .error .sessionNotActive
  else
    let changes_discarded := sess.changes_count
    let create_ops := sess.ops.filter (fun o =>
      o.operation_type == "create" && !o.is_undone)
    let db1 := create_ops.foldl discardDelete db
    let modify_ops := sess.ops.filter (fun o =>
      (o.operation_type == "update" || o.operation_type == "delete"
        || o.operation_type == "transfer") && !o.is_undone)
    let db2 := modify_ops.foldl discardRestore db1
    .ok (db2, { sess with status := "discarded", discarded_at := some now },
         changes_discarded)

end SessionService

namespace RecordService

/-- `RecordService._record_to_snapshot`: seventeen keys, including `owner`,
`nextaction` and `deleted_at` (dates and `deleted_at` via `isoformat`,
modelled as the identity on `Val.vt`). -/
def record_to_snapshot (r : Record) : Smap :=
  [("area", r.area), ("type", r.type), ("account", r.account),
   ("reference", r.reference), ("note", r.note),
   ("date_cashflow", if r.date_cashflow.truthy then r.date_cashflow else Val.vnone),
   ("date_offer", if r.date_offer.truthy then r.date_offer else Val.vnone),
   ("owner", r.owner), ("nextaction", r.nextaction),
   ("amount", r.amount), ("vat", r.vat), ("total", r.total),
   ("stage", r.stage), ("transaction_id", r.transaction_id),
   ("bank_account_id", r.bank_account_id), ("project_code", r.project_code),
   ("deleted_at", match r.deleted_at with | some t => Val.vt t | none => Val.vnone)]

/-- `RecordService._apply_snapshot`: per-field application with `dict.get`
defaults, truthiness guards on dates/amounts, and the `deleted_at`
restore (parse when truthy, clear otherwise).  The source's sequence of
independent attribute assignments is written as one record literal. -/
def apply_snapshot (r : Record) (s : Smap) : Record :=
  { r with
    area := s.getD "area" r.area,
    type := s.getD "type" r.type,
    account := s.getD "account" r.account,
    reference := s.getD "reference" r.reference,
    note := s.get "note",
    owner := s.get "owner",
    nextaction := s.get "nextaction",
    stage := s.getD "stage" r.stage,
    transaction_id := s.get "transaction_id",
    bank_account_id := s.get "bank_account_id",
    project_code := s.get "project_code",
    date_cashflow := if (s.get "date_cashflow").truthy then s.get "date_cashflow" else r.date_cashflow,
    date_offer := if (s.get "date_offer").truthy then s.get "date_offer" else r.date_offer,
    amount := if (s.get "amount").truthy then s.get "amount" else r.amount,
    vat := if (s.get "vat").truthy then s.get "vat" else r.vat,
    total := if (s.get "total").truthy then s.get "total" else r.total,
    deleted_at := if (s.get "deleted_at").truthy then (s.get "deleted_at").asTime else none }

/-- `RecordService.get_record`: fetch by id within a workspace or raise
`NotFoundException`. -/
def get_record (db : DB) (record_id workspace_id : String) : Except Err Record :=
  match db.records.find? (fun r => r.id == record_id && r.workspace_id == workspace_id) with
  | some r => .ok r
  | none => .error (.notFound record_id)

/-- `RecordService._create_version`: build the audit-trail row for the
record's current state (the generated uuid primary key is modelled as an
opaque fixed string; nothing in the modelled code reads it after the
pre-loop target lookup). -/
def create_version (record : Record) (user_id : String) (change_type : String)
    (change_note : Option String) (now : Nat) : RecordVersion :=
  ⟨"", record.id, record.version, record_to_snapshot record, now, some user_id,
   none, change_type, change_note⟩

/-- The version entry with the latest `changed_at`
(`ORDER BY changed_at DESC LIMIT 1`). -/
def maxByChangedAt (vs : List RecordVersion) : Option RecordVersion :=
  vs.foldl (fun acc v =>
    match acc with
    | none => some v
    | some b => if b.changed_at < v.changed_at then some v else acc) none

/-- The version entry with the earliest `changed_at`
(`ORDER BY changed_at ASC LIMIT 1`). -/
def minByChangedAt (vs : List RecordVersion) : Option RecordVersion :=
  vs.foldl (fun acc v =>
    match acc with
    | none => some v
    | some b => if v.changed_at < b.changed_at then some v else acc) none

/-- The latest version entry of `rid` at or before time `t`. -/
def restoreTarget (versions : List RecordVersion) (rid : String) (t : Nat) :
    Option RecordVersion :=
  maxByChangedAt (versions.filter (fun v => v.record_id == rid && decide (v.changed_at ≤ t)))

/-- The earliest version entry of `rid`. -/
def earliestVersion (versions : List RecordVersion) (rid : String) :
    Option RecordVersion :=
  minByChangedAt (versions.filter (fun v => v.record_id == rid))

/-- The body of the `rollback_to_version` loop for one not-yet-processed
record: the three-way branch (restore to the pre-target snapshot /
soft-delete a record created after the target / leave untouched). -/
def processRecord (db : DB) (target : RecordVersion) (user : User) (now : Nat)
    (wid : String) (rid : String) : Except Err (DB × Option Record) :=
  match get_record db rid wid with
  | .error e => .error e
  | .ok record =>
    match restoreTarget db.versions rid target.changed_at with
    | some restore_to =>
      let r1 := apply_snapshot record restore_to.snapshot
      let r2 := { r1 with updated_by := some user.id, updated_at := now, version := r1.version + 1 }
      let entry := create_version r2 user.id "rollback"
        (some ("Rollback to " ++ toString target.changed_at)) now
      let db' := updateRecordStore db rid (fun _ => r2)
      .ok ({ db' with versions := db'.versions ++ [entry] }, some r2)
    | none =>
      match earliestVersion db.versions rid with
      | some e =>
        if e.change_type = "create" ∧ target.changed_at < e.changed_at then
          let r2 := { record with
            deleted_at := some now, deleted_by := some user.id, version := record.version + 1 }
          let entry := create_version r2 user.id "rollback"
            (some ("Rollback: record created after " ++ toString target.changed_at)) now
          let db' := updateRecordStore db rid (fun _ => r2)
          .ok ({ db' with versions := db'.versions ++ [entry] }, some r2)
        else .ok (db, none)
      | none => .ok (db, none)

/-- The `rollback_to_version` iteration over the affected version entries,
skipping records already processed. -/
def rollbackLoop (target : RecordVersion) (user : User) (now : Nat) (wid : String) :
    DB → List String → List Record → List RecordVersion → Except Err (DB × List Record)
  | db, _, restored, [] => .ok (db, restored)
  | db, processed, restored, ver :: rest =>
    if ver.record_id ∈ processed then
      rollbackLoop target user now wid db processed restored rest
    else
      match processRecord db target user now wid ver.record_id with
      | .error e => .error e
      | .ok (db', rec?) =>
        let restored' := match rec? with
          | some r => restored ++ [r]
          | none => restored
        rollbackLoop target user now wid db' (ver.record_id :: processed) restored' rest

/-- `RecordService.rollback_to_version`: find the target entry, collect every
later entry of the workspace (joined against an existing record of the
workspace), order them most-recent-first and process each affected record
once. -/
def rollback_to_version (db : DB) (workspace_id : String) (version_id : String)
    (user : User) (now : Nat) : Except Err (DB × List Record) :=
  match db.versions.find? (fun v => v.id == version_id) with
  | none => .error (.notFound version_id)
  | some target =>
    let vlist := db.versions.filter (fun v =>
      (match findRecord db v.record_id with
       | some r => r.workspace_id == workspace_id
       | none => false) && decide (target.changed_at < v.changed_at))
    let sorted := vlist.insertionSort (fun a b => b.changed_at ≤ a.changed_at)
    rollbackLoop target user now workspace_id db [] [] sorted

end RecordService

/-- Find the session's lock for a record id. -/
def findLock (locks : List Lock) (rid : String) : Option Lock :=
  locks.find? (fun l => l.record_id == rid)

/-- Modelled from the spec: the DraftOverlay upsert of `apply_edit`
(spec §4.2 step 3).  The repository declares `SessionRecordLock` and
consumes it in `check_conflicts` / `commit_session` / `resolve_conflicts`,
but no code under the sources creates or updates a lock; the spec says
"if none exists, create one with `base_version = record.version`; if one
exists, overwrite `draft_snapshot` with the new `after_snapshot` and leave
`base_version` unchanged". -/
def upsertLock (sess : Session) (record : Record) (after_snapshot : Smap)
    (now : Nat) : Session :=
  match findLock sess.locks record.id with
  | none => { sess with locks :=
      sess.locks ++ [⟨record.id, after_snapshot, record.version, now⟩] }
  | some _ => { sess with locks := sess.locks.map (fun l =>
      if l.record_id = record.id then { l with draft_snapshot := after_snapshot } else l) }

/-- Modelled from the spec: `apply_edit` (spec §4.2) = session-active check
(step 0, §4.1), DraftOverlay upsert (step 3, modelled above) and
`add_operation` (step 4, taken from the source). -/
def apply_edit (sess : Session) (record : Record) (operation_type : String)
    (before_snapshot : Option Smap) (after_snapshot : Smap)
    (from_area to_area : Option String) (now : Nat) : Except Err Session :=
  if sess.status ≠ "active" then .error .sessionNotActive
  else
    let sess1 := upsertLock sess record after_snapshot now
    match SessionService.add_operation sess1 operation_type record before_snapshot
        after_snapshot from_area to_area now with
    | .error e => .error e
    | .ok (sess2, _) => .ok sess2

/-- One call in a sequence of session edits: append an operation, undo,
or redo. -/
inductive Step where
  | add (operation_type : String) (record : Record) (before_snapshot : Option Smap)
        (after_snapshot : Smap) (from_area to_area : Option String)
  | undo
  | redo
deriving DecidableEq

/-- Execute one call against the store and session.  A raised exception
leaves the state unchanged (each service method raises before mutating). -/
def runStep (user : User) (now : Nat) (st : DB × Session) (step : Step) : DB × Session :=
  match step with
  | .add t r b a f ta =>
    match SessionService.add_operation st.2 t r b a f ta now with
    | .ok (s, _) => (st.1, s)
    | .error _ => st
  | .undo =>
    match SessionService.undo_operation st.1 st.2 user now with
    | .ok (db', s) => (db', s)
    | .error _ => st
  | .redo =>
    match SessionService.redo_operation st.1 st.2 user now with
    | .ok (db', s) => (db', s)
    | .error _ => st

/-- Execute a sequence of calls. -/
def run (user : User) (now : Nat) (st : DB × Session) (steps : List Step) : DB × Session :=
  steps.foldl (runStep user now) st

/-- The counters invariant of spec §8: `changes_summary[t]` versus the
operation log. -/
def summaryMatches (sess : Session) : Prop :=
  sess.changes_summary.created
      = (sess.ops.filter (fun o => o.operation_type == "create")).length
  ∧ sess.changes_summary.updated
      = (sess.ops.filter (fun o => o.operation_type == "update")).length
  ∧ sess.changes_summary.deleted
      = (sess.ops.filter (fun o => o.operation_type == "delete")).length
  ∧ sess.changes_summary.transferred
      = (sess.ops.filter (fun o => o.operation_type == "transfer")).length

/-! ### Concrete fixtures used by witnesses and counterexamples -/

/-- A live record, version 1. -/
def rec1 : Record :=
  { id := "r1", workspace_id := "w1", area := .vs "budget", type := .vs "cost",
    account := .vs "acc", reference := .vs "ref", note := .vnone,
    date_cashflow := .vt 10, date_offer := .vt 10, amount := .vs "100",
    vat := .vs "0", total := .vs "100", stage := .vs "open", owner := .vnone,
    nextaction := .vnone, transaction_id := .vnone, bank_account_id := .vnone,
    project_code := .vnone, version := 1, created_by := some "u1",
    updated_by := some "u1", created_at := 1, updated_at := 1,
    deleted_at := none, deleted_by := none }

/-- A user. -/
def user1 : User := ⟨"u1", "Alice"⟩

/-- A fresh active session with zeroed counters. -/
def sess0 : Session :=
  { id := "s1", workspace_id := "w1", user_id := "u1", title := none,
    status := "active", created_at := 1, last_activity := 1,
    committed_at := none, discarded_at := none, commit_message := none,
    changes_count := 0, changes_summary := ⟨0, 0, 0, 0⟩,
    messages := [], ops := [], locks := [] }

/-- A store holding `rec1` and `user1`, with an empty version log. -/
def db1 : DB := { records := [rec1], versions := [], users := [user1] }

/-- A draft overlay on `rec1` anchored at its live version. -/
def lockZ : Lock := ⟨"r1", [("note", Val.vs "z")], 1, 1⟩

/-- `sess0` holding a draft overlay on `rec1` anchored at its live version. -/
def sessLock : Session := { sess0 with locks := [lockZ] }

/-- A draft overlay on `rec1` anchored at a stale version. -/
def lockStale : Lock := ⟨"r1", [("note", Val.vs "z")], 0, 1⟩

/-- `sess0` holding a draft overlay on `rec1` anchored at a stale version. -/
def sessConf : Session := { sess0 with locks := [lockStale] }

/-- A `keep_mine` resolution for `rec1`. -/
def resKM : SessionService.ConflictResolution := ⟨"r1", "keep_mine", none⟩

/-- `sess0` holding a draft overlay whose record id is absent from the store. -/
def sessDangling : Session := { sess0 with locks := [⟨"rX", [("note", .vs "z")], 1, 1⟩] }

/-- A non-undone update operation on `rec1`. -/
def opUpd : Operation :=
  ⟨1, "update", "r1", .vs "budget", some [("note", .vs "orig")], [("note", .vs "new")],
   none, none, false, none⟩

/-- An undone update operation on `rec1`. -/
def opUndone : Operation :=
  ⟨2, "update", "r1", .vs "budget", some [("note", .vs "new")], [("note", .vs "newer")],
   none, none, true, some 4⟩

/-- `sess0` with one non-undone and one undone operation. -/
def sessOps : Session := { sess0 with ops := [opUpd, opUndone] }

/-- A record created during a session (to be hard-deleted on discard). -/
def recC : Record := { rec1 with id := "rC" }

/-- The create operation for `recC`. -/
def opCreate : Operation :=
  ⟨2, "create", "rC", .vs "budget", none, [("note", .vs "n")], none, none, false, none⟩

/-- A session holding a create of `recC` and an update of `rec1`. -/
def sessDiscard : Session := { sess0 with ops := [opUpd, opCreate] }

/-- A store holding `rec1` and `recC`. -/
def dbDiscard : DB := { records := [rec1, recC], versions := [], users := [user1] }

/-- The create version entry of `rec1`, at time 10. -/
def ver1 : RecordVersion :=
  ⟨"v1", "r1", 1, RecordService.record_to_snapshot rec1, 10, some "u1", none, "create", none⟩

/-- `rec1` after an update, version 2. -/
def rec1b : Record := { rec1 with note := .vs "changed", version := 2 }

/-- The update version entry of `rec1`, at time 20. -/
def ver2 : RecordVersion :=
  ⟨"v2", "r1", 2, RecordService.record_to_snapshot rec1b, 20, some "u1", none, "update", none⟩

/-- A create entry of a second record `rO` at time 5, predating `ver1`. -/
def ver0 : RecordVersion := ⟨"v0", "rO", 1, [], 5, some "u1", none, "create", none⟩

/-- The second record `rO`. -/
def recO : Record := { rec1 with id := "rO" }

/-- A store for the rollback scenarios: `rec1` (at version 2 with history
`ver1`, `ver2`) and `rO` (history `ver0`). -/
def dbRoll : DB := { records := [rec1b, recO], versions := [ver0, ver1, ver2], users := [user1] }

/-- The lock produced by one `resolve_conflicts` iteration for resolution
`res`, starting lock `l0` and live record `r`: the draft follows the
strategy (`keep_theirs` replaces it with the record's current snapshot,
truthy `manual` values are merged in, anything else leaves it), and
`base_version` is refreshed to the record's current version. -/
def resolvedLock (res : SessionService.ConflictResolution) (l0 : Lock) (r : Record) : Lock :=
  if res.strategy = "keep_theirs" then
    { l0 with draft_snapshot := SessionService.record_to_snapshot r, base_version := r.version }
  else if res.strategy = "manual" ∧ SessionService.manualTruthy res.manual_values then
    { l0 with
      draft_snapshot := Smap.update l0.draft_snapshot (res.manual_values.getD [])
      base_version := r.version }
  else { l0 with base_version := r.version }

/-- The identity-and-concurrency surface of a record: its primary key, its
workspace and its optimistic-locking version. -/
def recTrio (r : Record) : String × String × Nat := (r.id, r.workspace_id, r.version)

/-- The record produced by rollback's restore branch: the pre-target
snapshot applied, stamped and bumped. -/
def rollbackRestore (user : User) (now : Nat) (r0 : Record) (rv : RecordVersion) : Record :=
  { RecordService.apply_snapshot r0 rv.snapshot with
    updated_by := some user.id, updated_at := now,
    version := (RecordService.apply_snapshot r0 rv.snapshot).version + 1 }

/-- The record produced by rollback's soft-delete branch (the record did not
exist at the target point in time). -/
def rollbackSoftDelete (user : User) (now : Nat) (r0 : Record) : Record :=
  { r0 with deleted_at := some now, deleted_by := some user.id, version := r0.version + 1 }

/-! ## Theorems -/

set_option maxHeartbeats 1000000

lemma applySnapshotKey_id (r : Record) (k : String) (v : Val) :
    (SessionService.applySnapshotKey r k v).id = r.id := by
  unfold SessionService.applySnapshotKey
  by_cases h : k = "id" ∨ k = "workspace_id" ∨ k = "version"
  · rw [if_pos h]
  · rw [if_neg h]

lemma applySnapshotKey_workspace (r : Record) (k : String) (v : Val) :
    (SessionService.applySnapshotKey r k v).workspace_id = r.workspace_id := by
  unfold SessionService.applySnapshotKey
  by_cases h : k = "id" ∨ k = "workspace_id" ∨ k = "version"
  · rw [if_pos h]
  · rw [if_neg h]

lemma applySnapshotKey_version (r : Record) (k : String) (v : Val) :
    (SessionService.applySnapshotKey r k v).version = r.version := by
  unfold SessionService.applySnapshotKey
  by_cases h : k = "id" ∨ k = "workspace_id" ∨ k = "version"
  · rw [if_pos h]
  · rw [if_neg h]

lemma sess_apply_snapshot_id (r : Record) (s : Smap) :
    (SessionService.apply_snapshot r s).id = r.id := by
  unfold SessionService.apply_snapshot
  induction s generalizing r with
  | nil => rfl
  | cons kv rest ih => rw [List.foldl_cons, ih, applySnapshotKey_id]

lemma sess_apply_snapshot_workspace (r : Record) (s : Smap) :
    (SessionService.apply_snapshot r s).workspace_id = r.workspace_id := by
  unfold SessionService.apply_snapshot
  induction s generalizing r with
  | nil => rfl
  | cons kv rest ih => rw [List.foldl_cons, ih, applySnapshotKey_workspace]

lemma sess_apply_snapshot_version (r : Record) (s : Smap) :
    (SessionService.apply_snapshot r s).version = r.version := by
  unfold SessionService.apply_snapshot
  induction s generalizing r with
  | nil => rfl
  | cons kv rest ih => rw [List.foldl_cons, ih, applySnapshotKey_version]

lemma rec_apply_snapshot_id (r : Record) (s : Smap) :
    (RecordService.apply_snapshot r s).id = r.id := rfl

lemma rec_apply_snapshot_workspace (r : Record) (s : Smap) :
    (RecordService.apply_snapshot r s).workspace_id = r.workspace_id := rfl

lemma rec_apply_snapshot_version (r : Record) (s : Smap) :
    (RecordService.apply_snapshot r s).version = r.version := rfl

lemma find?_map_update_self (l : List Record) (rid : String) (f : Record → Record)
    (hf : ∀ r, (f r).id = r.id) :
    (l.map (fun r => if r.id = rid then f r else r)).find? (fun r => r.id = rid) =
      (l.find? (fun r => r.id = rid)).map f := by
  induction l with
  | nil => rfl
  | cons a l ih =>
    by_cases h : a.id = rid
    · simp [List.find?, h, hf]
    · simp [List.find?, h, ih]

lemma find?_map_update_other (l : List Record) (rid rid' : String) (f : Record → Record)
    (hf : ∀ r, (f r).id = r.id) (hne : rid' ≠ rid) :
    (l.map (fun r => if r.id = rid then f r else r)).find? (fun r => r.id = rid') =
      l.find? (fun r => r.id = rid') := by
  induction l with
  | nil => rfl
  | cons a l ih =>
    by_cases h : a.id = rid
    · have hfa : ¬((f a).id = rid') := by
        rw [hf, h]
        exact fun hc => hne hc.symm
      have h3 : ¬(a.id = rid') := by
        rw [h]
        exact fun hc => hne hc.symm
      have h4 : ¬(rid = rid') := fun hc => hne hc.symm
      simp [List.find?, h, hfa, h3, h4, ih]
    · simp [List.find?, h, ih]

lemma findRecord_update_self (db : DB) (rid : String) (f : Record → Record)
    (hf : ∀ r, (f r).id = r.id) :
    findRecord (updateRecordStore db rid f) rid = (findRecord db rid).map f := by
  unfold findRecord updateRecordStore
  exact find?_map_update_self db.records rid f hf

lemma findRecord_update_other (db : DB) (rid rid' : String) (f : Record → Record)
    (hf : ∀ r, (f r).id = r.id) (hne : rid' ≠ rid) :
    findRecord (updateRecordStore db rid f) rid' = findRecord db rid' := by
  unfold findRecord updateRecordStore
  exact find?_map_update_other db.records rid rid' f hf hne

lemma findRecord_delete_self (db : DB) (rid : String) :
    findRecord (deleteRecordStore db rid) rid = none := by
  unfold findRecord deleteRecordStore
  simp only [List.find?_eq_none]
  intro r hr
  have := List.of_mem_filter hr
  simpa using this

lemma find?_filter_ne (l : List Record) (rid rid' : String) (hne : rid' ≠ rid) :
    (l.filter (fun r => r.id ≠ rid)).find? (fun r => r.id = rid') =
      l.find? (fun r => r.id = rid') := by
  induction l with
  | nil => rfl
  | cons a l ih =>
    by_cases h : a.id = rid
    · have h3 : ¬(a.id = rid') := by
        rw [h]
        exact fun hc => hne hc.symm
      have hp : (decide (a.id ≠ rid)) = false := by simpa using h
      simp only [List.filter_cons, hp, Bool.false_eq_true, if_false]
      rw [List.find?_cons_of_neg _ (by simpa using h3), ih]
    · have hp : (decide (a.id ≠ rid)) = true := by simpa using h
      simp only [List.filter_cons, hp, if_true]
      by_cases h3 : a.id = rid'
      · rw [List.find?_cons_of_pos _ (by simpa using h3),
            List.find?_cons_of_pos _ (by simpa using h3)]
      · rw [List.find?_cons_of_neg _ (by simpa using h3),
            List.find?_cons_of_neg _ (by simpa using h3), ih]

lemma findRecord_delete_other (db : DB) (rid rid' : String) (hne : rid' ≠ rid) :
    findRecord (deleteRecordStore db rid) rid' = findRecord db rid' := by
  unfold findRecord deleteRecordStore
  exact find?_filter_ne db.records rid rid' hne

lemma updateRecordStore_versions (db : DB) (rid : String) (f : Record → Record) :
    (updateRecordStore db rid f).versions = db.versions := rfl

lemma deleteRecordStore_versions (db : DB) (rid : String) :
    (deleteRecordStore db rid).versions = db.versions := rfl

lemma commitTransform_id (user : User) (now : Nat) (draft : Smap) (r : Record) :
    (SessionService.commitTransform user now draft r).id = r.id := by
  unfold SessionService.commitTransform
  exact sess_apply_snapshot_id r draft

lemma discardTransform_id (o : Operation) (s : Smap) (r : Record) :
    (SessionService.discardTransform o s r).id = r.id := by
  unfold SessionService.discardTransform
  by_cases h : o.operation_type = "delete"
  · simp only [h, if_pos]
    exact sess_apply_snapshot_id r s
  · simp only [h, if_neg, ite_false]
    exact sess_apply_snapshot_id r s

/-- C1: for every active session whose `check_conflicts` result is non-empty,
`commit_session` raises the CONFLICT error carrying the full conflict set.
The exception is raised before any mutation, which the embedding reflects by
returning the error and no new state: no record's version or fields change,
and the session keeps its fields (status stays active, `committed_at` and
`commit_message` unset). -/
theorem c1_commit_conflict_aborts (db : DB) (sess : Session) (user : User)
    (message : Option String) (now : Nat)
    (hact : sess.status = "active")
    (hconf : SessionService.check_conflicts db sess ≠ []) :
    SessionService.commit_session db sess user message now =
      .error (.conflict (SessionService.check_conflicts db sess)) := by
  unfold SessionService.commit_session
  rw [if_neg (fun hc => hc hact), if_pos hconf]

/-- Witness for C1: a concrete active session with one stale draft overlay. -/
theorem c1_commit_conflict_aborts_witness :
    sessConf.status = "active" ∧
    SessionService.check_conflicts db1 sessConf ≠ [] ∧
    SessionService.commit_session db1 sessConf user1 none 5 =
      .error (.conflict (SessionService.check_conflicts db1 sessConf)) :=
  ⟨rfl, by decide, c1_commit_conflict_aborts db1 sessConf user1 none 5 rfl (by decide)⟩

/-- C2 counterexample: a concrete conflict-free commit succeeds and bumps the
record's version from 1 to 2, yet the version log stays empty — no
VersionEntry is appended in lockstep with the bump. -/
theorem c2_commit_no_version_entry_cex :
    (SessionService.commit_session db1 sessLock user1 (some "msg") 5).toOption.map
        (fun x => (x.1.versions.length,
                   (findRecord x.1 "r1").map (fun (r : Record) => r.version),
                   x.2.1.status)) =
      some (0, some 2, "committed") := by decide

lemma commitApply_versions (user : User) (now : Nat) (d : DB) (lock : Lock) :
    (SessionService.commitApply user now d lock).versions = d.versions := by
  unfold SessionService.commitApply
  cases findRecord d lock.record_id <;> rfl

lemma commitFold_versions (user : User) (now : Nat) (locks : List Lock) (db : DB) :
    (locks.foldl (SessionService.commitApply user now) db).versions = db.versions := by
  induction locks generalizing db with
  | nil => rfl
  | cons a locks ih => rw [List.foldl_cons, ih, commitApply_versions]

lemma commitApply_lookup_other (user : User) (now : Nat) (d : DB) (lock : Lock)
    (rid : String) (hne : rid ≠ lock.record_id) :
    findRecord (SessionService.commitApply user now d lock) rid = findRecord d rid := by
  unfold SessionService.commitApply
  cases findRecord d lock.record_id with
  | none => rfl
  | some r => exact findRecord_update_other d lock.record_id rid _ (commitTransform_id user now _) hne

lemma commitFold_lookup_notmem (user : User) (now : Nat) (locks : List Lock) (db : DB)
    (rid : String) (h : ∀ l ∈ locks, l.record_id ≠ rid) :
    findRecord (locks.foldl (SessionService.commitApply user now) db) rid = findRecord db rid := by
  induction locks generalizing db with
  | nil => rfl
  | cons a locks ih =>
    rw [List.foldl_cons, ih _ (fun l hl => h l (List.mem_cons_of_mem a hl)),
        commitApply_lookup_other user now db a rid (fun hc => h a (List.mem_cons_self a locks) hc.symm)]

lemma commitFold_lookup_mem (user : User) (now : Nat) (locks : List Lock) (db : DB)
    (lock : Lock) (hmem : lock ∈ locks)
    (hnodup : (locks.map (fun l => l.record_id)).Nodup) :
    findRecord (locks.foldl (SessionService.commitApply user now) db) lock.record_id =
      (findRecord db lock.record_id).map
        (SessionService.commitTransform user now lock.draft_snapshot) := by
  induction locks generalizing db with
  | nil => cases hmem
  | cons a locks ih =>
    rw [List.foldl_cons]
    have hnd : (∀ x ∈ locks, ¬x.record_id = a.record_id) ∧
        (locks.map (fun l => l.record_id)).Nodup := by simpa using hnodup
    rcases List.mem_cons.mp hmem with heq | hmem'
    · subst heq
      have hnotin : ∀ l ∈ locks, l.record_id ≠ lock.record_id :=
        fun l hl hc => hnd.1 l hl hc
      rw [commitFold_lookup_notmem user now locks _ _ hnotin]
      unfold SessionService.commitApply
      cases hfr : findRecord db lock.record_id with
      | none => simp [hfr]
      | some r =>
        rw [findRecord_update_self db lock.record_id _ (commitTransform_id user now _), hfr]
    · have hne : lock.record_id ≠ a.record_id := fun hc => hnd.1 lock hmem' hc
      rw [ih (SessionService.commitApply user now db a) hmem' hnd.2,
          commitApply_lookup_other user now db a lock.record_id hne]

/-- C2 (amended): for every active session with zero conflicts,
`commit_session` applies each draft overlay's snapshot onto the live record,
increments its version by exactly 1, stamps `updated_by` / `updated_at`, and
the session becomes committed — but, contrary to the claim, appends **no**
VersionEntry: the version log is left exactly as it was. -/
theorem c2_commit_applies_drafts_amended (db : DB) (sess : Session) (user : User)
    (message : Option String) (now : Nat) (lock : Lock) (r : Record)
    (hact : sess.status = "active")
    (hnoconf : SessionService.check_conflicts db sess = [])
    (hnodup : (sess.locks.map (fun l => l.record_id)).Nodup)
    (hmem : lock ∈ sess.locks)
    (hrec : findRecord db lock.record_id = some r) :
    ∃ db' sess', SessionService.commit_session db sess user message now =
        .ok (db', sess', sess.changes_count) ∧
      findRecord db' lock.record_id = some
        { SessionService.apply_snapshot r lock.draft_snapshot with
          version := r.version + 1, updated_by := some user.id, updated_at := now } ∧
      db'.versions = db.versions ∧
      sess'.status = "committed" ∧ sess'.committed_at = some now ∧
      sess'.commit_message = message := by
  unfold SessionService.commit_session
  rw [if_neg (fun hc => hc hact), if_neg (fun hc => hc hnoconf)]
  refine ⟨_, _, rfl, ?_, ?_, rfl, rfl, rfl⟩
  · rw [commitFold_lookup_mem user now sess.locks db lock hmem hnodup, hrec]
    unfold SessionService.commitTransform
    simp [sess_apply_snapshot_version]
  · exact commitFold_versions user now sess.locks db

/-- Witness for the amended C2: the concrete conflict-free commit from the
counterexample, seen through the amended theorem. -/
theorem c2_commit_applies_drafts_amended_witness :
    SessionService.check_conflicts db1 sessLock = [] ∧
    (SessionService.commit_session db1 sessLock user1 (some "m") 5).toOption.map
        (fun x => (findRecord x.1 "r1", x.1.versions, x.2.1.status)) =
      some (some { SessionService.apply_snapshot rec1 lockZ.draft_snapshot with
                     version := rec1.version + 1, updated_by := some user1.id,
                     updated_at := 5 },
            db1.versions, "committed") := by
  obtain ⟨db', sess', hok, hrec, hver, hst, _, _⟩ :=
    c2_commit_applies_drafts_amended db1 sessLock user1 (some "m") 5 lockZ rec1
      rfl (by decide) (by decide) (by decide) (by decide)
  refine ⟨by decide, ?_⟩
  rw [hok]
  simp only [Except.toOption, Option.map]
  have h1 : findRecord db' "r1" = findRecord db' lockZ.record_id := rfl
  rw [h1, hrec, hver, hst]

/-- C3 counterexample: one update operation added then undone.  The claim
says `changes_count` equals the number of non-undone operations (here 0),
but the code never decrements the counter on undo: it stays 1, and
`changes_summary["updated"]` likewise stays 1. -/
theorem c3_changes_count_cex :
    (let st := run user1 3 (db1, sess0)
        [Step.add "update" rec1 (some [("note", Val.vs "x")]) [("note", Val.vs "y")] none none,
         Step.undo];
     (st.2.changes_count,
      (st.2.ops.filter (fun o => !o.is_undone)).length,
      st.2.changes_summary.updated)) = (1, 0, 1) := by decide

lemma filter_length_map_typed (l : List Operation) (g : Operation → Operation) (t : String)
    (hg : ∀ o, (g o).operation_type = o.operation_type) :
    ((l.map g).filter (fun o => o.operation_type == t)).length =
      (l.filter (fun o => o.operation_type == t)).length := by
  induction l with
  | nil => rfl
  | cons a l ih =>
    by_cases h : a.operation_type = t
    · have h2 : (g a).operation_type = t := by rw [hg, h]
      simp [List.filter_cons, h, h2, ih]
    · have h2 : ¬((g a).operation_type = t) := by rw [hg]; exact h
      simp [List.filter_cons, h, h2, ih]

lemma add_message_ok_shape (sess : Session) (content role : String) (now : Nat)
    (s2 : Session) (m : Message)
    (h : SessionService.add_message sess content role now = .ok (s2, m)) :
    s2 = { sess with messages := sess.messages ++ [m], last_activity := now } := by
  unfold SessionService.add_message at h
  split at h
  · simp at h
  · simp only [Except.ok.injEq, Prod.mk.injEq] at h
    obtain ⟨hs, hm⟩ := h
    rw [← hs, hm]

lemma add_operation_ok_shape (sess : Session) (t : String) (record : Record)
    (b : Option Smap) (a : Smap) (f ta : Option String) (now : Nat)
    (s' : Session) (op : Operation)
    (h : SessionService.add_operation sess t record b a f ta now = .ok (s', op)) :
    s'.ops = sess.ops ++ [op] ∧ op.operation_type = t ∧
    s'.changes_count = sess.changes_count + 1 ∧
    s'.changes_summary = SessionService.bumpSummary sess.changes_summary t ∧
    s'.status = sess.status ∧ s'.locks = sess.locks := by
  unfold SessionService.add_operation at h
  split at h
  · simp at h
  · simp only [Except.ok.injEq, Prod.mk.injEq] at h
    obtain ⟨hs, hop⟩ := h
    subst hs
    subst hop
    exact ⟨rfl, rfl, rfl, rfl, rfl, rfl⟩

lemma undo_ok_shape (db : DB) (sess : Session) (user : User) (now : Nat)
    (db' : DB) (s' : Session)
    (h : SessionService.undo_operation db sess user now = .ok (db', s')) :
    (∃ g : Operation → Operation, s'.ops = sess.ops.map g ∧
      (∀ o, (g o).operation_type = o.operation_type)) ∧
    s'.changes_count = sess.changes_count ∧
    s'.changes_summary = sess.changes_summary ∧
    s'.status = sess.status ∧ s'.locks = sess.locks := by
  unfold SessionService.undo_operation at h
  by_cases h1 : sess.status ≠ "active"
  · rw [if_pos h1] at h
    simp at h
  · rw [if_neg h1] at h
    cases hop : SessionService.lastNonUndone sess.ops with
    | none =>
      rw [hop] at h
      simp at h
    | some op =>
      rw [hop] at h
      dsimp only at h
      set sess1 : Session := { sess with ops := sess.ops.map (fun o =>
        if o.sequence = op.sequence then { o with is_undone := true, undone_at := some now }
        else o) } with hsess1
      cases hmsg : SessionService.add_message sess1
          ("Undo: " ++ op.operation_type ++ " operation reverted") "system" now with
      | error e =>
        rw [hmsg] at h
        simp at h
      | ok pr =>
        obtain ⟨s2, m⟩ := pr
        rw [hmsg] at h
        dsimp only at h
        simp only [Except.ok.injEq, Prod.mk.injEq] at h
        obtain ⟨hdb, hs⟩ := h
        have hshape := add_message_ok_shape _ _ _ _ _ _ hmsg
        subst hs
        rw [hshape, hsess1]
        exact ⟨⟨_, rfl, fun o => by by_cases hq : o.sequence = op.sequence <;> simp [hq]⟩,
               rfl, rfl, rfl, rfl⟩

lemma redo_ok_shape (db : DB) (sess : Session) (user : User) (now : Nat)
    (db' : DB) (s' : Session)
    (h : SessionService.redo_operation db sess user now = .ok (db', s')) :
    (∃ g : Operation → Operation, s'.ops = sess.ops.map g ∧
      (∀ o, (g o).operation_type = o.operation_type)) ∧
    s'.changes_count = sess.changes_count ∧
    s'.changes_summary = sess.changes_summary ∧
    s'.status = sess.status ∧ s'.locks = sess.locks := by
  unfold SessionService.redo_operation at h
  by_cases h1 : sess.status ≠ "active"
  · rw [if_pos h1] at h
    simp at h
  · rw [if_neg h1] at h
    cases hop : SessionService.firstUndone sess.ops with
    | none =>
      rw [hop] at h
      simp at h
    | some op =>
      rw [hop] at h
      dsimp only at h
      set sess1 : Session := { sess with ops := sess.ops.map (fun o =>
        if o.sequence = op.sequence then { o with is_undone := false, undone_at := none }
        else o) } with hsess1
      cases hmsg : SessionService.add_message sess1
          ("Redo: " ++ op.operation_type ++ " operation reapplied") "system" now with
      | error e =>
        rw [hmsg] at h
        simp at h
      | ok pr =>
        obtain ⟨s2, m⟩ := pr
        rw [hmsg] at h
        dsimp only at h
        simp only [Except.ok.injEq, Prod.mk.injEq] at h
        obtain ⟨hdb, hs⟩ := h
        have hshape := add_message_ok_shape _ _ _ _ _ _ hmsg
        subst hs
        rw [hshape, hsess1]
        exact ⟨⟨_, rfl, fun o => by by_cases hq : o.sequence = op.sequence <;> simp [hq]⟩,
               rfl, rfl, rfl, rfl⟩

lemma runStep_counters (user : User) (now : Nat) (st : DB × Session) (step : Step)
    (h1 : st.2.changes_count = st.2.ops.length)
    (h2 : summaryMatches st.2) :
    (runStep user now st step).2.changes_count = (runStep user now st step).2.ops.length ∧
    summaryMatches (runStep user now st step).2 := by
  obtain ⟨hc, hu, hd, ht⟩ := h2
  cases step with
  | add t record b a f ta =>
    unfold runStep
    cases hres : SessionService.add_operation st.2 t record b a f ta now with
    | error e =>
      simp only [hres]
      exact ⟨h1, hc, hu, hd, ht⟩
    | ok pr =>
      obtain ⟨sA, opA⟩ := pr
      simp only [hres]
      obtain ⟨hops, htype, hcount, hsummary, _, _⟩ :=
        add_operation_ok_shape st.2 t record b a f ta now sA opA hres
      refine ⟨?_, ?_, ?_, ?_, ?_⟩
      · simp [hops, hcount, h1]
      all_goals
        simp only [summaryMatches, hops, hsummary, SessionService.bumpSummary,
          List.filter_append, List.length_append]
      · by_cases hcr : t = "create" <;>
          by_cases hup : t = "update" <;>
            by_cases hdel : t = "delete" <;>
              by_cases htr : t = "transfer" <;>
                simp_all [List.filter_cons, htype]
      · by_cases hcr : t = "create" <;>
          by_cases hup : t = "update" <;>
            by_cases hdel : t = "delete" <;>
              by_cases htr : t = "transfer" <;>
                simp_all [List.filter_cons, htype]
      · by_cases hcr : t = "create" <;>
          by_cases hup : t = "update" <;>
            by_cases hdel : t = "delete" <;>
              by_cases htr : t = "transfer" <;>
                simp_all [List.filter_cons, htype]
      · by_cases hcr : t = "create" <;>
          by_cases hup : t = "update" <;>
            by_cases hdel : t = "delete" <;>
              by_cases htr : t = "transfer" <;>
                simp_all [List.filter_cons, htype]
  | undo =>
    unfold runStep
    cases hres : SessionService.undo_operation st.1 st.2 user now with
    | error e =>
      simp only [hres]
      exact ⟨h1, hc, hu, hd, ht⟩
    | ok pr =>
      obtain ⟨dbU, sU⟩ := pr
      simp only [hres]
      obtain ⟨⟨g, hops, hg⟩, hcount, hsummary, _, _⟩ :=
        undo_ok_shape st.1 st.2 user now dbU sU hres
      exact ⟨by simp [hops, hcount, h1],
             by simp [summaryMatches, hops, hsummary, hc, hu, hd, ht,
               filter_length_map_typed _ g _ hg]⟩
  | redo =>
    unfold runStep
    cases hres : SessionService.redo_operation st.1 st.2 user now with
    | error e =>
      simp only [hres]
      exact ⟨h1, hc, hu, hd, ht⟩
    | ok pr =>
      obtain ⟨dbU, sU⟩ := pr
      simp only [hres]
      obtain ⟨⟨g, hops, hg⟩, hcount, hsummary, _, _⟩ :=
        redo_ok_shape st.1 st.2 user now dbU sU hres
      exact ⟨by simp [hops, hcount, h1],
             by simp [summaryMatches, hops, hsummary, hc, hu, hd, ht,
               filter_length_map_typed _ g _ hg]⟩

/-- C3 (amended): for every sequence of add-operation, undo and redo calls,
`changes_count` equals the **total** number of operations in the session's
log — undone or not — and `changes_summary[t]` equals the total number of
logged operations of type `t`; undo and redo never adjust either counter,
so the claimed equality with the *non-undone* counts fails as soon as an
operation is undone. -/
theorem c3_changes_count_total_amended (steps : List Step) (user : User) (now : Nat)
    (db : DB) (sess : Session)
    (h1 : sess.changes_count = sess.ops.length)
    (h2 : summaryMatches sess) :
    (run user now (db, sess) steps).2.changes_count =
      (run user now (db, sess) steps).2.ops.length ∧
    summaryMatches (run user now (db, sess) steps).2 := by
  induction steps generalizing db sess with
  | nil => exact ⟨h1, h2⟩
  | cons step steps ih =>
    unfold run
    rw [List.foldl_cons]
    have hstep := runStep_counters user now (db, sess) step h1 h2
    exact ih (runStep user now (db, sess) step).1 (runStep user now (db, sess) step).2 hstep.1 hstep.2

/-- Witness for the amended C3: the add-then-undo sequence of the
counterexample satisfies the amended invariant (count 1 equals the log
length 1 even though the operation is undone). -/
theorem c3_changes_count_total_amended_witness :
    sess0.changes_count = sess0.ops.length ∧ summaryMatches sess0 ∧
    (run user1 3 (db1, sess0)
        [Step.add "update" rec1 (some [("note", Val.vs "x")]) [("note", Val.vs "y")] none none,
         Step.undo]).2.changes_count =
      (run user1 3 (db1, sess0)
        [Step.add "update" rec1 (some [("note", Val.vs "x")]) [("note", Val.vs "y")] none none,
         Step.undo]).2.ops.length :=
  ⟨rfl, ⟨rfl, rfl, rfl, rfl⟩,
   (c3_changes_count_total_amended
      [Step.add "update" rec1 (some [("note", Val.vs "x")]) [("note", Val.vs "y")] none none,
       Step.undo] user1 3 db1 sess0 rfl ⟨rfl, rfl, rfl, rfl⟩).1⟩

lemma lastNU_fold_none (ops : List Operation) (acc : Option Operation) :
    (ops.foldl (fun acc o =>
      if o.is_undone then acc
      else match acc with
        | none => some o
        | some b => if b.sequence < o.sequence then some o else acc) acc) = none ↔
      (acc = none ∧ ∀ o ∈ ops, o.is_undone = true) := by
  induction ops generalizing acc with
  | nil => simp
  | cons a ops ih =>
    rw [List.foldl_cons]
    by_cases ha : a.is_undone
    · rw [if_pos ha, ih]
      constructor
      · rintro ⟨hn, hall⟩
        refine ⟨hn, fun o ho => ?_⟩
        rcases List.mem_cons.mp ho with rfl | ho'
        · exact ha
        · exact hall o ho'
      · rintro ⟨hn, hall⟩
        exact ⟨hn, fun o ho => hall o (List.mem_cons_of_mem a ho)⟩
    · rw [if_neg ha]
      cases acc with
      | none =>
        dsimp only
        rw [ih]
        constructor
        · rintro ⟨hn, _⟩
          cases hn
        · rintro ⟨_, hall⟩
          exact absurd (hall a (List.mem_cons_self a ops)) (by simpa using ha)
      | some b =>
        dsimp only
        by_cases hb : b.sequence < a.sequence
        · rw [if_pos hb, ih]
          constructor
          · rintro ⟨hn, _⟩
            cases hn
          · rintro ⟨hn, _⟩
            cases hn
        · rw [if_neg hb, ih]
          constructor
          · rintro ⟨hn, _⟩
            cases hn
          · rintro ⟨hn, _⟩
            cases hn

lemma lastNU_fold_some (ops : List Operation) (acc : Option Operation) (op : Operation)
    (h : (ops.foldl (fun acc o =>
      if o.is_undone then acc
      else match acc with
        | none => some o
        | some b => if b.sequence < o.sequence then some o else acc) acc) = some op) :
    ((acc = some op) ∨ (op ∈ ops ∧ op.is_undone = false)) ∧
    (∀ o ∈ ops, o.is_undone = false → o.sequence ≤ op.sequence) ∧
    (∀ b, acc = some b → b.sequence ≤ op.sequence) := by
  induction ops generalizing acc with
  | nil =>
    simp only [List.foldl_nil] at h
    refine ⟨Or.inl h, by simp, fun b hb => ?_⟩
    rw [hb] at h
    cases h
    exact Nat.le_refl _
  | cons a ops ih =>
    rw [List.foldl_cons] at h
    by_cases ha : a.is_undone
    · rw [if_pos ha] at h
      obtain ⟨h1, h2, h3⟩ := ih acc h
      refine ⟨?_, ?_, h3⟩
      · rcases h1 with h1 | ⟨hm, hu⟩
        · exact Or.inl h1
        · exact Or.inr ⟨List.mem_cons_of_mem a hm, hu⟩
      · intro o ho hou
        rcases List.mem_cons.mp ho with rfl | ho'
        · exact absurd ha (by simp [hou])
        · exact h2 o ho' hou
    · rw [if_neg ha] at h
      cases acc with
      | none =>
        dsimp only at h
        obtain ⟨h1, h2, h3⟩ := ih (some a) h
        have haseq : a.sequence ≤ op.sequence := h3 a rfl
        refine ⟨?_, ?_, by simp⟩
        · rcases h1 with h1 | ⟨hm, hu⟩
          · cases h1
            exact Or.inr ⟨List.mem_cons_self _ _, by simpa using ha⟩
          · exact Or.inr ⟨List.mem_cons_of_mem a hm, hu⟩
        · intro o ho hou
          rcases List.mem_cons.mp ho with rfl | ho'
          · exact haseq
          · exact h2 o ho' hou
      | some b =>
        dsimp only at h
        by_cases hb : b.sequence < a.sequence
        · rw [if_pos hb] at h
          obtain ⟨h1, h2, h3⟩ := ih (some a) h
          have haseq : a.sequence ≤ op.sequence := h3 a rfl
          refine ⟨?_, ?_, ?_⟩
          · rcases h1 with h1 | ⟨hm, hu⟩
            · cases h1
              exact Or.inr ⟨List.mem_cons_self _ _, by simpa using ha⟩
            · exact Or.inr ⟨List.mem_cons_of_mem a hm, hu⟩
          · intro o ho hou
            rcases List.mem_cons.mp ho with rfl | ho'
            · exact haseq
            · exact h2 o ho' hou
          · intro c hc
            cases hc
            exact Nat.le_trans (Nat.le_of_lt hb) haseq
        · rw [if_neg hb] at h
          obtain ⟨h1, h2, h3⟩ := ih (some b) h
          have hbseq : b.sequence ≤ op.sequence := h3 b rfl
          refine ⟨?_, ?_, ?_⟩
          · rcases h1 with h1 | ⟨hm, hu⟩
            · exact Or.inl h1
            · exact Or.inr ⟨List.mem_cons_of_mem a hm, hu⟩
          · intro o ho hou
            rcases List.mem_cons.mp ho with rfl | ho'
            · exact Nat.le_trans (Nat.le_of_not_lt hb) hbseq
            · exact h2 o ho' hou
          · intro c hc
            cases hc
            exact hbseq

lemma lastNonUndone_none_iff (ops : List Operation) :
    SessionService.lastNonUndone ops = none ↔ ∀ o ∈ ops, o.is_undone = true := by
  unfold SessionService.lastNonUndone
  rw [lastNU_fold_none]
  simp

lemma lastNonUndone_some_spec (ops : List Operation) (op : Operation)
    (h : SessionService.lastNonUndone ops = some op) :
    op ∈ ops ∧ op.is_undone = false ∧
      ∀ o ∈ ops, o.is_undone = false → o.sequence ≤ op.sequence := by
  unfold SessionService.lastNonUndone at h
  obtain ⟨h1, h2, _⟩ := lastNU_fold_some ops none op h
  rcases h1 with h1 | ⟨hm, hu⟩
  · cases h1
  · exact ⟨hm, hu, h2⟩

lemma firstU_fold_none (ops : List Operation) (acc : Option Operation) :
    (ops.foldl (fun acc o =>
      if o.is_undone then
        match acc with
        | none => some o
        | some b => if o.sequence < b.sequence then some o else acc
      else acc) acc) = none ↔
      (acc = none ∧ ∀ o ∈ ops, o.is_undone = false) := by
  induction ops generalizing acc with
  | nil => simp
  | cons a ops ih =>
    rw [List.foldl_cons]
    by_cases ha : a.is_undone
    · rw [if_pos ha]
      cases acc with
      | none =>
        dsimp only
        rw [ih]
        constructor
        · rintro ⟨hn, _⟩
          cases hn
        · rintro ⟨_, hall⟩
          exact absurd (hall a (List.mem_cons_self a ops)) (by simpa using ha)
      | some b =>
        dsimp only
        by_cases hb : a.sequence < b.sequence
        · rw [if_pos hb, ih]
          constructor
          · rintro ⟨hn, _⟩
            cases hn
          · rintro ⟨hn, _⟩
            cases hn
        · rw [if_neg hb, ih]
          constructor
          · rintro ⟨hn, _⟩
            cases hn
          · rintro ⟨hn, _⟩
            cases hn
    · rw [if_neg ha, ih]
      constructor
      · rintro ⟨hn, hall⟩
        refine ⟨hn, fun o ho => ?_⟩
        rcases List.mem_cons.mp ho with rfl | ho'
        · simpa using ha
        · exact hall o ho'
      · rintro ⟨hn, hall⟩
        exact ⟨hn, fun o ho => hall o (List.mem_cons_of_mem a ho)⟩

lemma firstU_fold_some (ops : List Operation) (acc : Option Operation) (op : Operation)
    (h : (ops.foldl (fun acc o =>
      if o.is_undone then
        match acc with
        | none => some o
        | some b => if o.sequence < b.sequence then some o else acc
      else acc) acc) = some op) :
    ((acc = some op) ∨ (op ∈ ops ∧ op.is_undone = true)) ∧
    (∀ o ∈ ops, o.is_undone = true → op.sequence ≤ o.sequence) ∧
    (∀ b, acc = some b → op.sequence ≤ b.sequence) := by
  induction ops generalizing acc with
  | nil =>
    simp only [List.foldl_nil] at h
    refine ⟨Or.inl h, by simp, fun b hb => ?_⟩
    rw [hb] at h
    cases h
    exact Nat.le_refl _
  | cons a ops ih =>
    rw [List.foldl_cons] at h
    by_cases ha : a.is_undone
    · rw [if_pos ha] at h
      cases acc with
      | none =>
        dsimp only at h
        obtain ⟨h1, h2, h3⟩ := ih (some a) h
        have haseq : op.sequence ≤ a.sequence := h3 a rfl
        refine ⟨?_, ?_, by simp⟩
        · rcases h1 with h1 | ⟨hm, hu⟩
          · cases h1
            exact Or.inr ⟨List.mem_cons_self _ _, ha⟩
          · exact Or.inr ⟨List.mem_cons_of_mem a hm, hu⟩
        · intro o ho hou
          rcases List.mem_cons.mp ho with rfl | ho'
          · exact haseq
          · exact h2 o ho' hou
      | some b =>
        dsimp only at h
        by_cases hb : a.sequence < b.sequence
        · rw [if_pos hb] at h
          obtain ⟨h1, h2, h3⟩ := ih (some a) h
          have haseq : op.sequence ≤ a.sequence := h3 a rfl
          refine ⟨?_, ?_, ?_⟩
          · rcases h1 with h1 | ⟨hm, hu⟩
            · cases h1
              exact Or.inr ⟨List.mem_cons_self _ _, ha⟩
            · exact Or.inr ⟨List.mem_cons_of_mem a hm, hu⟩
          · intro o ho hou
            rcases List.mem_cons.mp ho with rfl | ho'
            · exact haseq
            · exact h2 o ho' hou
          · intro c hc
            cases hc
            exact Nat.le_trans haseq (Nat.le_of_lt hb)
        · rw [if_neg hb] at h
          obtain ⟨h1, h2, h3⟩ := ih (some b) h
          have hbseq : op.sequence ≤ b.sequence := h3 b rfl
          refine ⟨?_, ?_, ?_⟩
          · rcases h1 with h1 | ⟨hm, hu⟩
            · exact Or.inl h1
            · exact Or.inr ⟨List.mem_cons_of_mem a hm, hu⟩
          · intro o ho hou
            rcases List.mem_cons.mp ho with rfl | ho'
            · exact Nat.le_trans hbseq (Nat.le_of_not_lt hb)
            · exact h2 o ho' hou
          · intro c hc
            cases hc
            exact hbseq
    · rw [if_neg ha] at h
      obtain ⟨h1, h2, h3⟩ := ih acc h
      refine ⟨?_, ?_, h3⟩
      · rcases h1 with h1 | ⟨hm, hu⟩
        · exact Or.inl h1
        · exact Or.inr ⟨List.mem_cons_of_mem a hm, hu⟩
      · intro o ho hou
        rcases List.mem_cons.mp ho with rfl | ho'
        · exact absurd hou (by simpa using ha)
        · exact h2 o ho' hou

lemma firstUndone_none_iff (ops : List Operation) :
    SessionService.firstUndone ops = none ↔ ∀ o ∈ ops, o.is_undone = false := by
  unfold SessionService.firstUndone
  rw [firstU_fold_none]
  simp

lemma firstUndone_some_spec (ops : List Operation) (op : Operation)
    (h : SessionService.firstUndone ops = some op) :
    op ∈ ops ∧ op.is_undone = true ∧
      ∀ o ∈ ops, o.is_undone = true → op.sequence ≤ o.sequence := by
  unfold SessionService.firstUndone at h
  obtain ⟨h1, h2, _⟩ := firstU_fold_some ops none op h
  rcases h1 with h1 | ⟨hm, hu⟩
  · cases h1
  · exact ⟨hm, hu, h2⟩

lemma add_message_active (sess : Session) (content role : String) (now : Nat)
    (h : sess.status = "active") :
    SessionService.add_message sess content role now =
      .ok ({ sess with
              messages := sess.messages ++
                [⟨SessionService.nextMsgSeq sess.messages, role, content, now⟩],
              last_activity := now },
            ⟨SessionService.nextMsgSeq sess.messages, role, content, now⟩) := by
  unfold SessionService.add_message
  rw [if_neg (fun hc => hc h)]

/-- C4: within an active session, undo fails with the nothing-to-undo error
exactly when every operation is undone; otherwise it targets the operation
with the highest sequence among the non-undone ones, reverts it by type
(create: soft-delete; delete: un-delete; update/transfer: re-apply
`before_snapshot`), and marks it undone with `undone_at` stamped.  Redo is
symmetric on the operation with the lowest sequence among the undone ones,
re-applies its effect and clears the undone mark. -/
theorem c4_undo_redo_linear_timeline (db : DB) (sess : Session) (user : User) (now : Nat)
    (hact : sess.status = "active") :
    (SessionService.undo_operation db sess user now = .error .nothingToUndo ↔
      ∀ o ∈ sess.ops, o.is_undone = true) ∧
    (∀ op, SessionService.lastNonUndone sess.ops = some op →
      op ∈ sess.ops ∧ op.is_undone = false ∧
      (∀ o ∈ sess.ops, o.is_undone = false → o.sequence ≤ op.sequence) ∧
      ∃ db' sess', SessionService.undo_operation db sess user now = .ok (db', sess') ∧
        { op with is_undone := true, undone_at := some now } ∈ sess'.ops ∧
        (∀ o ∈ sess.ops, o.sequence ≠ op.sequence → o ∈ sess'.ops) ∧
        (op.operation_type = "create" → ∀ r, findRecord db op.record_id = some r →
          findRecord db' op.record_id =
            some { r with deleted_at := some now, deleted_by := some user.id }) ∧
        (op.operation_type = "delete" → ∀ r, findRecord db op.record_id = some r →
          findRecord db' op.record_id =
            some { r with deleted_at := none, deleted_by := none }) ∧
        ((op.operation_type = "update" ∨ op.operation_type = "transfer") →
          ∀ r s, findRecord db op.record_id = some r → op.before_snapshot = some s →
            s ≠ [] →
          findRecord db' op.record_id = some (SessionService.apply_snapshot r s))) ∧
    (SessionService.redo_operation db sess user now = .error .nothingToRedo ↔
      ∀ o ∈ sess.ops, o.is_undone = false) ∧
    (∀ op, SessionService.firstUndone sess.ops = some op →
      op ∈ sess.ops ∧ op.is_undone = true ∧
      (∀ o ∈ sess.ops, o.is_undone = true → op.sequence ≤ o.sequence) ∧
      ∃ db' sess', SessionService.redo_operation db sess user now = .ok (db', sess') ∧
        { op with is_undone := false, undone_at := none } ∈ sess'.ops ∧
        (∀ o ∈ sess.ops, o.sequence ≠ op.sequence → o ∈ sess'.ops) ∧
        (op.operation_type = "create" → ∀ r, findRecord db op.record_id = some r →
          findRecord db' op.record_id =
            some { r with deleted_at := none, deleted_by := none }) ∧
        (op.operation_type = "delete" → ∀ r, findRecord db op.record_id = some r →
          findRecord db' op.record_id =
            some { r with deleted_at := some now, deleted_by := some user.id }) ∧
        ((op.operation_type = "update" ∨ op.operation_type = "transfer") →
          ∀ r, findRecord db op.record_id = some r →
          findRecord db' op.record_id =
            some (SessionService.apply_snapshot r op.after_snapshot))) := by
  refine ⟨?_, ?_, ?_, ?_⟩
  · -- undo errors iff everything is undone
    constructor
    · intro herr
      rw [← lastNonUndone_none_iff]
      cases hop : SessionService.lastNonUndone sess.ops with
      | none => rfl
      | some op =>
        unfold SessionService.undo_operation at herr
        rw [if_neg (fun hc => hc hact), hop] at herr
        dsimp only at herr
        rw [add_message_active { sess with ops := sess.ops.map (fun o =>
          if o.sequence = op.sequence then { o with is_undone := true, undone_at := some now }
          else o) } ("Undo: " ++ op.operation_type ++ " operation reverted") "system" now hact]
          at herr
        exact absurd herr (by simp)
    · intro hall
      unfold SessionService.undo_operation
      rw [if_neg (fun hc => hc hact), (lastNonUndone_none_iff sess.ops).mpr hall]
  · -- undo success path
    intro op hsel
    obtain ⟨hmem, hnotundone, hmax⟩ := lastNonUndone_some_spec sess.ops op hsel
    refine ⟨hmem, hnotundone, hmax, ?_⟩
    unfold SessionService.undo_operation
    rw [if_neg (fun hc => hc hact), hsel]
    dsimp only
    rw [add_message_active { sess with ops := sess.ops.map (fun o =>
      if o.sequence = op.sequence then { o with is_undone := true, undone_at := some now }
      else o) } ("Undo: " ++ op.operation_type ++ " operation reverted") "system" now hact]
    dsimp only
    refine ⟨_, _, rfl, ?_, ?_, ?_, ?_, ?_⟩
    · have := List.mem_map_of_mem (fun o =>
        if o.sequence = op.sequence then { o with is_undone := true, undone_at := some now }
        else o) hmem
      simpa using this
    · intro o ho hne
      have := List.mem_map_of_mem (fun o =>
        if o.sequence = op.sequence then { o with is_undone := true, undone_at := some now }
        else o) ho
      simpa [hne] using this
    · intro htype r hrec
      rw [htype, if_pos rfl, hrec]
      dsimp only
      rw [findRecord_update_self db op.record_id
            (fun r => { r with deleted_at := some now, deleted_by := some user.id })
            (fun _ => rfl), hrec]
      rfl
    · intro htype r hrec
      rw [htype, if_neg (by decide), if_pos rfl, hrec]
      dsimp only
      rw [findRecord_update_self db op.record_id
            (fun r => { r with deleted_at := none, deleted_by := none })
            (fun _ => rfl), hrec]
      rfl
    · intro htype r s hrec hbs hsne
      rcases htype with htype | htype <;>
        rw [htype, if_neg (by decide), if_neg (by decide), if_pos (by decide), hrec, hbs] <;>
        dsimp only <;>
        rw [if_neg hsne,
            findRecord_update_self db op.record_id _ (fun r => sess_apply_snapshot_id r s),
            hrec] <;>
        rfl
  · -- redo errors iff nothing is undone
    constructor
    · intro herr
      rw [← firstUndone_none_iff]
      cases hop : SessionService.firstUndone sess.ops with
      | none => rfl
      | some op =>
        unfold SessionService.redo_operation at herr
        rw [if_neg (fun hc => hc hact), hop] at herr
        dsimp only at herr
        rw [add_message_active { sess with ops := sess.ops.map (fun o =>
          if o.sequence = op.sequence then { o with is_undone := false, undone_at := none }
          else o) } ("Redo: " ++ op.operation_type ++ " operation reapplied") "system" now hact]
          at herr
        exact absurd herr (by simp)
    · intro hall
      unfold SessionService.redo_operation
      rw [if_neg (fun hc => hc hact), (firstUndone_none_iff sess.ops).mpr hall]
  · -- redo success path
    intro op hsel
    obtain ⟨hmem, hundone, hmin⟩ := firstUndone_some_spec sess.ops op hsel
    refine ⟨hmem, hundone, hmin, ?_⟩
    unfold SessionService.redo_operation
    rw [if_neg (fun hc => hc hact), hsel]
    dsimp only
    rw [add_message_active { sess with ops := sess.ops.map (fun o =>
      if o.sequence = op.sequence then { o with is_undone := false, undone_at := none }
      else o) } ("Redo: " ++ op.operation_type ++ " operation reapplied") "system" now hact]
    dsimp only
    refine ⟨_, _, rfl, ?_, ?_, ?_, ?_, ?_⟩
    · have := List.mem_map_of_mem (fun o =>
        if o.sequence = op.sequence then { o with is_undone := false, undone_at := none }
        else o) hmem
      simpa using this
    · intro o ho hne
      have := List.mem_map_of_mem (fun o =>
        if o.sequence = op.sequence then { o with is_undone := false, undone_at := none }
        else o) ho
      simpa [hne] using this
    · intro htype r hrec
      rw [htype, if_pos rfl, hrec]
      dsimp only
      rw [findRecord_update_self db op.record_id
            (fun r => { r with deleted_at := none, deleted_by := none })
            (fun _ => rfl), hrec]
      rfl
    · intro htype r hrec
      rw [htype, if_neg (by decide), if_pos rfl, hrec]
      dsimp only
      rw [findRecord_update_self db op.record_id
            (fun r => { r with deleted_at := some now, deleted_by := some user.id })
            (fun _ => rfl), hrec]
      rfl
    · intro htype r hrec
      rcases htype with htype | htype <;>
        rw [htype, if_neg (by decide), if_neg (by decide), if_pos (by decide), hrec] <;>
        dsimp only <;>
        rw [findRecord_update_self db op.record_id _
              (fun r => sess_apply_snapshot_id r op.after_snapshot),
            hrec] <;>
        rfl

/-- Witness for C4: in a session holding a non-undone update (sequence 1)
and an undone update (sequence 2), undo targets the former and re-applies
its before snapshot onto the stored record. -/
theorem c4_undo_redo_linear_timeline_witness :
    SessionService.lastNonUndone sessOps.ops = some opUpd ∧
    (SessionService.undo_operation db1 sessOps user1 7).toOption.map
        (fun x => findRecord x.1 "r1") =
      some (some (SessionService.apply_snapshot rec1 [("note", Val.vs "orig")])) := by
  obtain ⟨_, _, _, db', sess', hok, _, _, _, _, hupd⟩ :=
    (c4_undo_redo_linear_timeline db1 sessOps user1 7 rfl).2.1 opUpd (by decide)
  refine ⟨by decide, ?_⟩
  rw [hok]
  have heff := hupd (Or.inl rfl) rec1 [("note", Val.vs "orig")] (by decide) rfl (by decide)
  simp only [Except.toOption, Option.map]
  rw [show findRecord db' "r1" = findRecord db' opUpd.record_id from rfl, heff]

lemma findLock_append_none (locks : List Lock) (rid : String) (new : Lock)
    (h : findLock locks rid = none) (hnew : new.record_id = rid) :
    findLock (locks ++ [new]) rid = some new := by
  unfold findLock at *
  induction locks with
  | nil => simp [List.find?, hnew]
  | cons a locks ih =>
    by_cases ha : a.record_id = rid
    · rw [List.find?_cons_of_pos _ (by simpa using ha)] at h
      cases h
    · rw [List.find?_cons_of_neg _ (by simpa using ha)] at h
      rw [List.cons_append, List.find?_cons_of_neg _ (by simpa using ha)]
      exact ih h

lemma findLock_map (locks : List Lock) (rid : String) (g : Lock → Lock)
    (hg : ∀ l, (g l).record_id = l.record_id) :
    findLock (locks.map g) rid = (findLock locks rid).map g := by
  unfold findLock
  induction locks with
  | nil => rfl
  | cons a locks ih =>
    by_cases ha : a.record_id = rid
    · rw [List.map_cons, List.find?_cons_of_pos _ (by simpa [hg] using ha),
          List.find?_cons_of_pos _ (by simpa using ha)]
      rfl
    · rw [List.map_cons, List.find?_cons_of_neg _ (by simpa [hg] using ha),
          List.find?_cons_of_neg _ (by simpa using ha)]
      exact ih

/-- C5 (settled against the spec-modelled overlay upsert): the first edit of
a record in a session creates a DraftOverlay with `base_version` equal to the
record's version at that moment and `draft_snapshot` equal to the edit's
after snapshot; every subsequent edit of the same record overwrites
`draft_snapshot` but leaves `base_version` (and `locked_at`) unchanged. -/
theorem c5_base_version_anchored_at_first_touch (sess : Session) (record : Record)
    (operation_type : String) (before_snapshot : Option Smap) (after_snapshot : Smap)
    (from_area to_area : Option String) (now : Nat)
    (hact : sess.status = "active") :
    (findLock sess.locks record.id = none →
      ∃ sess', apply_edit sess record operation_type before_snapshot after_snapshot
          from_area to_area now = .ok sess' ∧
        findLock sess'.locks record.id =
          some ⟨record.id, after_snapshot, record.version, now⟩) ∧
    (∀ l, findLock sess.locks record.id = some l →
      ∃ sess', apply_edit sess record operation_type before_snapshot after_snapshot
          from_area to_area now = .ok sess' ∧
        findLock sess'.locks record.id = some { l with draft_snapshot := after_snapshot } ∧
        ({ l with draft_snapshot := after_snapshot }).base_version = l.base_version ∧
        ({ l with draft_snapshot := after_snapshot }).locked_at = l.locked_at) := by
  constructor
  · intro hnone
    unfold apply_edit upsertLock
    rw [if_neg (fun hc => hc hact), hnone]
    dsimp only
    unfold SessionService.add_operation
    rw [if_neg (fun hc => hc hact)]
    dsimp only
    refine ⟨_, rfl, ?_⟩
    exact findLock_append_none sess.locks record.id _ hnone rfl
  · intro l hsome
    unfold apply_edit upsertLock
    rw [if_neg (fun hc => hc hact), hsome]
    dsimp only
    unfold SessionService.add_operation
    rw [if_neg (fun hc => hc hact)]
    dsimp only
    refine ⟨_, rfl, ?_, rfl, rfl⟩
    rw [findLock_map sess.locks record.id _
          (fun l => by by_cases hq : l.record_id = record.id <;> simp [hq]), hsome]
    have hl : l.record_id = record.id := by
      have := List.find?_some hsome
      simpa using this
    simp [hl]

/-- Witness for C5: a first edit of `rec1` in a fresh session creates the
overlay anchored at version 1; a second edit overwrites only the draft. -/
theorem c5_base_version_anchored_at_first_touch_witness :
    findLock sess0.locks rec1.id = none ∧
    findLock sessLock.locks rec1.id = some lockZ ∧
    (∃ sess', apply_edit sess0 rec1 "update" none [("note", Val.vs "y")] none none 9 = .ok sess' ∧
      findLock sess'.locks rec1.id = some ⟨rec1.id, [("note", Val.vs "y")], rec1.version, 9⟩) ∧
    (∃ sess', apply_edit sessLock rec1 "update" none [("note", Val.vs "y")] none none 9 = .ok sess' ∧
      findLock sess'.locks rec1.id = some { lockZ with draft_snapshot := [("note", Val.vs "y")] } ∧
      ({ lockZ with draft_snapshot := [("note", Val.vs "y")] }).base_version = lockZ.base_version ∧
      ({ lockZ with draft_snapshot := [("note", Val.vs "y")] }).locked_at = lockZ.locked_at) :=
  ⟨by decide, by decide,
   (c5_base_version_anchored_at_first_touch sess0 rec1 "update" none
      [("note", Val.vs "y")] none none 9 rfl).1 (by decide),
   (c5_base_version_anchored_at_first_touch sessLock rec1 "update" none
      [("note", Val.vs "y")] none none 9 rfl).2 lockZ (by decide)⟩

/-- C6 counterexample: a session with one stale draft overlay, and an empty
resolution list: the commit invoked by `resolve_conflicts` still sees the
conflict and aborts, refuting "the subsequent commit invocation then sees
zero conflicts" for arbitrary resolution lists. -/
theorem c6_resolve_conflicts_uncovered_cex :
    SessionService.resolve_conflicts db1 sessConf user1 [] none 5 =
      .error (.conflict (SessionService.check_conflicts db1 sessConf)) ∧
    SessionService.check_conflicts db1 sessConf ≠ [] := by
  constructor
  · rfl
  · decide

/-- A lock's anchor agrees with the live record version. -/
def baseMatches (db : DB) (l : Lock) : Prop :=
  ∀ r, findRecord db l.record_id = some r → l.base_version = r.version

lemma check_conflicts_nil_iff (db : DB) (sess : Session) :
    SessionService.check_conflicts db sess = [] ↔
      ∀ l ∈ sess.locks, ∀ r, findRecord db l.record_id = some r →
        r.version = l.base_version := by
  unfold SessionService.check_conflicts
  rw [List.filterMap_eq_nil]
  constructor
  · intro h l hl r hr
    have hf := h l hl
    rw [hr] at hf
    by_contra hne
    simp [hne] at hf
  · intro h l hl
    cases hfr : findRecord db l.record_id with
    | none => simp [hfr]
    | some r =>
      have := h l hl r hfr
      simp [hfr, this]

lemma applyResolution_lock_ids (db : DB) (lks : List Lock) (res : SessionService.ConflictResolution) :
    ∀ l' ∈ SessionService.applyResolution db lks res, l' ∈ lks ∨
      (l'.record_id = res.record_id ∧ baseMatches db l') := by
  intro l' hl'
  unfold SessionService.applyResolution at hl'
  cases hA : lks.find? (fun l => l.record_id == res.record_id) with
  | none =>
    rw [hA] at hl'
    exact Or.inl hl'
  | some l0 =>
    cases hB : findRecord db res.record_id with
    | none =>
      rw [hA, hB] at hl'
      exact Or.inl hl'
    | some record =>
      rw [hA, hB] at hl'
      dsimp only at hl'
      obtain ⟨l, hl, hgl⟩ := List.mem_map.mp hl'
      by_cases hq : l.record_id = res.record_id
      · rw [if_pos hq] at hgl
        refine Or.inr ⟨?_, ?_⟩
        · rw [← hgl, hq]
        · intro r' hr'
          rw [← hgl] at hr' ⊢
          dsimp at hr' ⊢
          rw [hq] at hr'
          rw [hr'] at hB
          cases hB
          rfl
      · rw [if_neg hq] at hgl
        rw [← hgl]
        exact Or.inl hl

lemma resolveFold_members (db : DB) (rs : List SessionService.ConflictResolution) :
    ∀ lks, ∀ l' ∈ rs.foldl (SessionService.applyResolution db) lks,
      l' ∈ lks ∨ baseMatches db l' := by
  induction rs with
  | nil =>
    intro lks l' hl'
    exact Or.inl hl'
  | cons res rs ih =>
    intro lks l' hl'
    rw [List.foldl_cons] at hl'
    rcases ih (SessionService.applyResolution db lks res) l' hl' with hmem | hbm
    · rcases applyResolution_lock_ids db lks res l' hmem with hmem' | ⟨_, hbm⟩
      · exact Or.inl hmem'
      · exact Or.inr hbm
    · exact Or.inr hbm

lemma findLock_mem_ne_none (lks : List Lock) (l : Lock) (hl : l ∈ lks) :
    findLock lks l.record_id ≠ none := by
  unfold findLock
  intro h
  rw [List.find?_eq_none] at h
  exact (by simpa using h l hl : False)

lemma applyResolution_transform_rid (res : SessionService.ConflictResolution)
    (record : Record) (now : Nat) (l : Lock) :
    ((fun l : Lock =>
      if l.record_id = res.record_id then
        let draft :=
          if res.strategy = "keep_theirs" then SessionService.record_to_snapshot record
          else if res.strategy = "manual" ∧ SessionService.manualTruthy res.manual_values then
            Smap.update l.draft_snapshot (res.manual_values.getD [])
          else l.draft_snapshot
        { l with draft_snapshot := draft, base_version := record.version }
      else l) l).record_id = l.record_id := by
  by_cases hq : l.record_id = res.record_id <;> simp [hq]

lemma applyResolution_findLock_other (db : DB) (lks : List Lock)
    (res : SessionService.ConflictResolution) (rid : String) (hne : rid ≠ res.record_id) :
    findLock (SessionService.applyResolution db lks res) rid = findLock lks rid := by
  unfold SessionService.applyResolution
  cases hA : lks.find? (fun l => l.record_id == res.record_id) with
  | none => rfl
  | some l0 =>
    cases hB : findRecord db res.record_id with
    | none => rfl
    | some record =>
      dsimp only
      rw [findLock_map lks rid _ (applyResolution_transform_rid res record 0)]
      cases hF : findLock lks rid with
      | none => rfl
      | some l =>
        have hid : l.record_id = rid := by
          have := List.find?_some hF
          simpa using this
        dsimp only [Option.map]
        rw [if_neg (fun hc => hne (hid ▸ hc))]

lemma applyResolution_findLock_self (db : DB) (lks : List Lock)
    (res : SessionService.ConflictResolution) (l0 : Lock) (r : Record)
    (hl : findLock lks res.record_id = some l0)
    (hr : findRecord db res.record_id = some r) :
    findLock (SessionService.applyResolution db lks res) res.record_id =
      some (resolvedLock res l0 r) := by
  unfold SessionService.applyResolution
  rw [show lks.find? (fun l => l.record_id == res.record_id) = some l0 from hl, hr]
  dsimp only
  rw [findLock_map lks res.record_id _ (applyResolution_transform_rid res r 0), hl]
  have hid : l0.record_id = res.record_id := by
    have := List.find?_some hl
    simpa using this
  dsimp only [Option.map]
  rw [if_pos hid]
  unfold resolvedLock
  by_cases hs1 : res.strategy = "keep_theirs"
  · simp [hs1]
  · by_cases hs2 : res.strategy = "manual" ∧ SessionService.manualTruthy res.manual_values
    · simp [hs1, hs2]
    · simp [hs1, hs2]

lemma applyResolution_findLock_none_iff (db : DB) (lks : List Lock)
    (res : SessionService.ConflictResolution) (rid : String) :
    findLock (SessionService.applyResolution db lks res) rid = none ↔
      findLock lks rid = none := by
  unfold SessionService.applyResolution
  cases hA : lks.find? (fun l => l.record_id == res.record_id) with
  | none => exact Iff.rfl
  | some l0 =>
    cases hB : findRecord db res.record_id with
    | none => exact Iff.rfl
    | some record =>
      dsimp only
      rw [findLock_map lks rid _ (applyResolution_transform_rid res record 0)]
      exact Option.map_eq_none

lemma resolveFold_findLock_untouched (db : DB) (rs : List SessionService.ConflictResolution)
    (rid : String) (h : ∀ res ∈ rs, res.record_id ≠ rid) :
    ∀ lks, findLock (rs.foldl (SessionService.applyResolution db) lks) rid = findLock lks rid := by
  induction rs with
  | nil => intro lks; rfl
  | cons res rs ih =>
    intro lks
    rw [List.foldl_cons, ih (fun q hq => h q (List.mem_cons_of_mem res hq)),
        applyResolution_findLock_other db lks res rid
          (fun hc => h res (List.mem_cons_self res rs) hc.symm)]

lemma resolveFold_findLock_covered (db : DB) (rs : List SessionService.ConflictResolution)
    (res : SessionService.ConflictResolution) (l0 : Lock) (r : Record) (hmem : res ∈ rs)
    (hnodup : (rs.map (fun q => q.record_id)).Nodup) :
    ∀ lks, findLock lks res.record_id = some l0 → findRecord db res.record_id = some r →
    findLock (rs.foldl (SessionService.applyResolution db) lks) res.record_id =
      some (resolvedLock res l0 r) := by
  induction rs with
  | nil => cases hmem
  | cons res0 rs ih =>
    intro lks hl hr
    rw [List.foldl_cons]
    have hnd : (∀ q ∈ rs, ¬q.record_id = res0.record_id) ∧
        (rs.map (fun q => q.record_id)).Nodup := by simpa using hnodup
    rcases List.mem_cons.mp hmem with heq | hmem'
    · subst heq
      rw [resolveFold_findLock_untouched db rs res.record_id
            (fun q hq => hnd.1 q hq) _,
          applyResolution_findLock_self db lks res l0 r hl hr]
    · have hne : res.record_id ≠ res0.record_id := fun hc => hnd.1 res hmem' hc
      exact ih hmem' hnd.2 (SessionService.applyResolution db lks res0)
        ((applyResolution_findLock_other db lks res0 res.record_id hne).trans hl) hr

lemma applyResolution_sets_rid (db : DB) (lks : List Lock)
    (res : SessionService.ConflictResolution) (r : Record)
    (hlk : findLock lks res.record_id ≠ none)
    (hr : findRecord db res.record_id = some r) :
    ∀ l' ∈ SessionService.applyResolution db lks res,
      l'.record_id = res.record_id → l'.base_version = r.version := by
  intro l' hl' hrid
  unfold SessionService.applyResolution at hl'
  cases hA : lks.find? (fun l => l.record_id == res.record_id) with
  | none => exact absurd hA hlk
  | some l0 =>
    rw [hA, hr] at hl'
    dsimp only at hl'
    obtain ⟨l, _, hgl⟩ := List.mem_map.mp hl'
    by_cases hq : l.record_id = res.record_id
    · rw [if_pos hq] at hgl
      rw [← hgl]
    · rw [if_neg hq] at hgl
      exact absurd (hgl ▸ hrid) hq

lemma applyResolution_keeps_rid (db : DB) (lks : List Lock)
    (res : SessionService.ConflictResolution) (rid : String) (r : Record)
    (hr : findRecord db rid = some r)
    (hprev : ∀ l' ∈ lks, l'.record_id = rid → l'.base_version = r.version) :
    ∀ l' ∈ SessionService.applyResolution db lks res,
      l'.record_id = rid → l'.base_version = r.version := by
  intro l' hl' hrid
  unfold SessionService.applyResolution at hl'
  cases hA : lks.find? (fun l => l.record_id == res.record_id) with
  | none =>
    rw [hA] at hl'
    exact hprev l' hl' hrid
  | some l0 =>
    cases hB : findRecord db res.record_id with
    | none =>
      rw [hA, hB] at hl'
      exact hprev l' hl' hrid
    | some record =>
      rw [hA, hB] at hl'
      dsimp only at hl'
      obtain ⟨l, hl, hgl⟩ := List.mem_map.mp hl'
      by_cases hq : l.record_id = res.record_id
      · rw [if_pos hq] at hgl
        have hres_rid : res.record_id = rid := by
          rw [← hgl] at hrid
          dsimp at hrid
          rw [← hq]
          exact hrid
        rw [hres_rid] at hB
        rw [hr] at hB
        cases hB
        rw [← hgl]
      · rw [if_neg hq] at hgl
        rw [← hgl]
        exact hprev l hl (hgl ▸ hrid)

lemma resolveFold_keeps (db : DB) (rid : String) (r : Record)
    (hr : findRecord db rid = some r) :
    ∀ rs : List SessionService.ConflictResolution, ∀ lks,
      (∀ l' ∈ lks, l'.record_id = rid → l'.base_version = r.version) →
      ∀ l' ∈ rs.foldl (SessionService.applyResolution db) lks,
        l'.record_id = rid → l'.base_version = r.version := by
  intro rs
  induction rs with
  | nil => intro lks hprev; exact hprev
  | cons res rs ih =>
    intro lks hprev
    rw [List.foldl_cons]
    exact ih (SessionService.applyResolution db lks res)
      (applyResolution_keeps_rid db lks res rid r hr hprev)

lemma resolveFold_sets_base (db : DB) (rid : String) (r : Record)
    (hr : findRecord db rid = some r) :
    ∀ rs : List SessionService.ConflictResolution, ∀ lks,
      (∃ res ∈ rs, res.record_id = rid) → findLock lks rid ≠ none →
      ∀ l' ∈ rs.foldl (SessionService.applyResolution db) lks,
        l'.record_id = rid → l'.base_version = r.version := by
  intro rs
  induction rs with
  | nil =>
    rintro lks ⟨res, hres, _⟩ _
    cases hres
  | cons res0 rs ih =>
    rintro lks ⟨res, hres, hresid⟩ hlk l' hl' hrid
    rw [List.foldl_cons] at hl'
    by_cases hr0 : res0.record_id = rid
    · have hbase0 : ∀ l'' ∈ SessionService.applyResolution db lks res0,
          l''.record_id = rid → l''.base_version = r.version := by
        intro l'' hl'' hrid''
        exact applyResolution_sets_rid db lks res0 r
          (by rw [hr0]; exact hlk) (by rw [hr0]; exact hr) l'' hl'' (hrid''.trans hr0.symm)
      exact resolveFold_keeps db rid r hr rs _ hbase0 l' hl' hrid
    · have hex' : ∃ q ∈ rs, q.record_id = rid := by
        rcases List.mem_cons.mp hres with heq | hmem'
        · exact absurd (heq ▸ hresid : res0.record_id = rid) hr0
        · exact ⟨res, hmem', hresid⟩
      have hlk' : findLock (SessionService.applyResolution db lks res0) rid ≠ none :=
        fun hc => hlk ((applyResolution_findLock_none_iff db lks res0 rid).mp hc)
      exact ih (SessionService.applyResolution db lks res0) hex' hlk' l' hl' hrid

/-- C6 (amended): for every active session and every resolution list that
covers all conflicting overlays (one resolution per record id), each named
overlay whose lock and record exist is mutated before the commit —
`keep_theirs` replaces the draft with the record's current snapshot, truthy
`manual` values are merged into the draft, `keep_mine` (or any other
strategy) leaves the draft untouched, and `base_version` is refreshed to
the record's current version in every case — and the commit invoked
afterwards sees zero conflicts and succeeds.  The original claim's "the
subsequent commit invocation then sees zero conflicts" fails when a
conflicting overlay is not named by any resolution. -/
theorem c6_resolve_conflicts_covered_amended (db : DB) (sess : Session) (user : User)
    (resolutions : List SessionService.ConflictResolution)
    (commit_message : Option String) (now : Nat)
    (hact : sess.status = "active")
    (hresNodup : (resolutions.map (fun q => q.record_id)).Nodup)
    (hcov : ∀ l ∈ sess.locks, ∀ r, findRecord db l.record_id = some r →
      r.version ≠ l.base_version → ∃ res ∈ resolutions, res.record_id = l.record_id) :
    (∀ res ∈ resolutions, ∀ l0 r,
      findLock sess.locks res.record_id = some l0 →
      findRecord db res.record_id = some r →
      findLock (resolutions.foldl (SessionService.applyResolution db) sess.locks)
          res.record_id = some (resolvedLock res l0 r)) ∧
    SessionService.check_conflicts db
      { sess with locks := resolutions.foldl (SessionService.applyResolution db) sess.locks }
      = [] ∧
    ∃ db' sess' n,
      SessionService.resolve_conflicts db sess user resolutions commit_message now =
        .ok (db', sess', n) ∧
      sess'.status = "committed" ∧ sess'.committed_at = some now := by
  have hnil : SessionService.check_conflicts db
      { sess with locks := resolutions.foldl (SessionService.applyResolution db) sess.locks }
      = [] := by
    rw [check_conflicts_nil_iff]
    intro l' hl' r hr'
    by_contra hne
    rcases resolveFold_members db resolutions sess.locks l' hl' with hmem | hbm
    · have hcov' := hcov l' hmem r hr' hne
      have hlk := findLock_mem_ne_none sess.locks l' hmem
      have hbase := resolveFold_sets_base db l'.record_id r hr' resolutions sess.locks
        hcov' hlk l' hl' rfl
      exact hne hbase.symm
    · exact hne (hbm r hr').symm
  refine ⟨?_, hnil, ?_⟩
  · intro res hres l0 r hl hr
    exact resolveFold_findLock_covered db resolutions res l0 r hres hresNodup sess.locks hl hr
  · unfold SessionService.resolve_conflicts
    rw [if_neg (fun hc => hc hact)]
    unfold SessionService.commit_session
    rw [if_neg (fun hc => hc hact), if_neg (fun hc => hc hnil)]
    exact ⟨_, _, _, rfl, rfl, rfl⟩

/-- Witness for the amended C6: the stale overlay of `sessConf`, resolved
with `keep_mine`, commits successfully. -/
theorem c6_resolve_conflicts_covered_amended_witness :
    SessionService.check_conflicts db1 sessConf ≠ [] ∧
    (SessionService.resolve_conflicts db1 sessConf user1 [resKM] none 5).toOption.map
        (fun x => x.2.1.status) = some "committed" := by
  obtain ⟨_, hnil, db', sess', n, hok, hst, _⟩ :=
    c6_resolve_conflicts_covered_amended db1 sessConf user1 [resKM] none 5 rfl (by decide)
      (fun l hl r hr hne => ⟨resKM, List.mem_cons_self _ _, by
        have he : l = lockStale := List.mem_singleton.mp (by simpa [sessConf, sess0] using hl)
        rw [he]
        rfl⟩)
  refine ⟨by decide, ?_⟩
  rw [hok]
  simp only [Except.toOption, Option.map]
  rw [hst]

lemma discardDelete_none_pres (d : DB) (o : Operation) (rid : String)
    (h : findRecord d rid = none) :
    findRecord (SessionService.discardDelete d o) rid = none := by
  unfold SessionService.discardDelete
  cases hf : findRecord d o.record_id with
  | none => exact h
  | some r =>
    by_cases hq : rid = o.record_id
    · rw [hq]
      exact findRecord_delete_self d o.record_id
    · rw [findRecord_delete_other d o.record_id rid hq]
      exact h

lemma deleteFold_none_pres (l : List Operation) (db : DB) (rid : String)
    (h : findRecord db rid = none) :
    findRecord (l.foldl SessionService.discardDelete db) rid = none := by
  induction l generalizing db with
  | nil => exact h
  | cons o l ih => exact ih _ (discardDelete_none_pres db o rid h)

lemma deleteFold_lookup_any (l : List Operation) (db : DB) (rid : String)
    (hmem : ∃ o ∈ l, o.record_id = rid) :
    findRecord (l.foldl SessionService.discardDelete db) rid = none := by
  induction l generalizing db with
  | nil =>
    obtain ⟨o, ho, _⟩ := hmem
    cases ho
  | cons o l ih =>
    obtain ⟨o', ho', hrid⟩ := hmem
    rcases List.mem_cons.mp ho' with rfl | ho''
    · rw [List.foldl_cons]
      apply deleteFold_none_pres
      unfold SessionService.discardDelete
      cases hf : findRecord db o'.record_id with
      | none => rw [← hrid]; exact hf
      | some r => rw [← hrid]; exact findRecord_delete_self db o'.record_id
    · rw [List.foldl_cons]
      exact ih _ ⟨o', ho'', hrid⟩

lemma discardDelete_lookup_other (d : DB) (o : Operation) (rid : String)
    (hne : ∀ q ∈ [o], Operation.record_id q ≠ rid) :
    findRecord (SessionService.discardDelete d o) rid = findRecord d rid := by
  unfold SessionService.discardDelete
  cases hf : findRecord d o.record_id with
  | none => rfl
  | some r =>
    exact findRecord_delete_other d o.record_id rid
      (fun hc => hne o (List.mem_cons_self o []) hc.symm)

lemma deleteFold_lookup_keep (l : List Operation) (db : DB) (rid : String)
    (h : ∀ o ∈ l, o.record_id ≠ rid) :
    findRecord (l.foldl SessionService.discardDelete db) rid = findRecord db rid := by
  induction l generalizing db with
  | nil => rfl
  | cons o l ih =>
    rw [List.foldl_cons, ih _ (fun q hq => h q (List.mem_cons_of_mem o hq)),
        discardDelete_lookup_other db o rid
          (fun q hq hc => h o (List.mem_cons_self o l) ((List.mem_singleton.mp hq) ▸ hc))]

lemma discardRestore_lookup_other (d : DB) (o : Operation) (rid : String)
    (hne : o.record_id ≠ rid) :
    findRecord (SessionService.discardRestore d o) rid = findRecord d rid := by
  unfold SessionService.discardRestore
  cases hb : o.before_snapshot with
  | none => rfl
  | some s =>
    dsimp only
    by_cases hs : s = []
    · rw [if_pos hs]
    · rw [if_neg hs]
      cases hf : findRecord d o.record_id with
      | none => rfl
      | some r =>
        exact findRecord_update_other d o.record_id rid _ (discardTransform_id o s)
          (fun hc => hne hc.symm)

lemma restoreFold_lookup_keep (l : List Operation) (db : DB) (rid : String)
    (h : ∀ o ∈ l, o.record_id ≠ rid) :
    findRecord (l.foldl SessionService.discardRestore db) rid = findRecord db rid := by
  induction l generalizing db with
  | nil => rfl
  | cons o l ih =>
    rw [List.foldl_cons, ih _ (fun q hq => h q (List.mem_cons_of_mem o hq)),
        discardRestore_lookup_other db o rid (h o (List.mem_cons_self o l))]

lemma discardRestore_none_pres (d : DB) (o : Operation) (rid : String)
    (h : findRecord d rid = none) :
    findRecord (SessionService.discardRestore d o) rid = none := by
  unfold SessionService.discardRestore
  cases hb : o.before_snapshot with
  | none => exact h
  | some s =>
    dsimp only
    by_cases hs : s = []
    · rw [if_pos hs]
      exact h
    · rw [if_neg hs]
      cases hf : findRecord d o.record_id with
      | none => exact h
      | some r =>
        have hne : rid ≠ o.record_id := by
          intro hc
          rw [hc, hf] at h
          cases h
        rw [findRecord_update_other d o.record_id rid _ (discardTransform_id o s) hne]
        exact h

lemma restoreFold_none_pres (l : List Operation) (db : DB) (rid : String)
    (h : findRecord db rid = none) :
    findRecord (l.foldl SessionService.discardRestore db) rid = none := by
  induction l generalizing db with
  | nil => exact h
  | cons o l ih => exact ih _ (discardRestore_none_pres db o rid h)

lemma restoreFold_single (l : List Operation) (db : DB) (rid : String) (op : Operation)
    (s : Smap) (r : Record)
    (hfilter : l.filter (fun o => o.record_id == rid) = [op])
    (hs : op.before_snapshot = some s) (hsne : s ≠ [])
    (hfound : findRecord db rid = some r) :
    findRecord (l.foldl SessionService.discardRestore db) rid =
      some (SessionService.discardTransform op s r) := by
  induction l generalizing db with
  | nil => cases hfilter
  | cons o l ih =>
    rw [List.foldl_cons]
    by_cases ho : o.record_id = rid
    · rw [List.filter_cons_of_pos (by simpa using ho)] at hfilter
      have hop : o = op := by
        have := List.cons_eq_cons.mp hfilter
        exact this.1
      have htail : l.filter (fun o => o.record_id == rid) = [] :=
        (List.cons_eq_cons.mp hfilter).2
      subst hop
      rw [restoreFold_lookup_keep l _ rid
            (fun q hq hc => by
              rw [List.filter_eq_nil] at htail
              exact htail q hq (by simpa using hc))]
      unfold SessionService.discardRestore
      rw [hs]
      dsimp only
      rw [if_neg hsne, ho, hfound,
          findRecord_update_self db rid _ (discardTransform_id o s), hfound]
      rfl
    · rw [List.filter_cons_of_neg (by simpa using ho)] at hfilter
      rw [ih _ hfilter]
      · rw [discardRestore_lookup_other db o rid ho, hfound]

/-- C7: for every active session, discard hard-deletes from the store every
record referenced by a non-undone create operation, re-applies
`before_snapshot` onto the live record for each non-undone update, delete
or transfer operation that is the only non-undone operation on its record
(un-deleting the record for a delete operation, via `discardTransform`),
and marks the session discarded with `discarded_at` stamped. -/
theorem c7_discard_reverses_session (db : DB) (sess : Session) (now : Nat) (op : Operation)
    (hact : sess.status = "active")
    (hmem : op ∈ sess.ops) (hnotundone : op.is_undone = false) :
    ∃ db' sess' n, SessionService.discard_session db sess now = .ok (db', sess', n) ∧
      sess'.status = "discarded" ∧ sess'.discarded_at = some now ∧
      n = sess.changes_count ∧
      (op.operation_type = "create" → findRecord db' op.record_id = none) ∧
      ((op.operation_type = "update" ∨ op.operation_type = "delete" ∨
          op.operation_type = "transfer") →
        ∀ s r, op.before_snapshot = some s → s ≠ [] →
          findRecord db op.record_id = some r →
          sess.ops.filter (fun o => !o.is_undone && o.record_id == op.record_id) = [op] →
          findRecord db' op.record_id = some (SessionService.discardTransform op s r)) := by
  unfold SessionService.discard_session
  rw [if_neg (fun hc => hc hact)]
  refine ⟨_, _, _, rfl, rfl, rfl, rfl, ?_, ?_⟩
  · intro htype
    apply restoreFold_none_pres
    apply deleteFold_lookup_any
    exact ⟨op, List.mem_filter.mpr ⟨hmem, by simp [htype, hnotundone]⟩, rfl⟩
  · intro htype s r hs hsne hfound hunique
    have hmod : op.operation_type == "update" || op.operation_type == "delete"
        || op.operation_type == "transfer" := by
      rcases htype with h | h | h <;> simp [h]
    have hcreate_none : ∀ o' ∈ sess.ops.filter (fun o =>
        o.operation_type == "create" && !o.is_undone), o'.record_id ≠ op.record_id := by
      intro o' ho' hc
      obtain ⟨ho'mem, ho'p⟩ := List.mem_filter.mp ho'
      have ho'cr : o'.operation_type = "create" := by
        have := (Bool.and_eq_true _ _).mp ho'p
        simpa using this.1
      have ho'nu : o'.is_undone = false := by
        have := (Bool.and_eq_true _ _).mp ho'p
        simpa using this.2
      have : o' ∈ sess.ops.filter (fun o => !o.is_undone && o.record_id == op.record_id) :=
        List.mem_filter.mpr ⟨ho'mem, by simp [ho'nu, hc]⟩
      rw [hunique] at this
      have ho'op : o' = op := List.mem_singleton.mp this
      rw [ho'op] at ho'cr
      rcases htype with h | h | h <;> rw [h] at ho'cr <;> simp at ho'cr
    have hdb1 : findRecord ((sess.ops.filter (fun o =>
        o.operation_type == "create" && !o.is_undone)).foldl
          SessionService.discardDelete db) op.record_id = some r := by
      rw [deleteFold_lookup_keep _ db op.record_id hcreate_none]
      exact hfound
    apply restoreFold_single _ _ op.record_id op s r _ hs hsne hdb1
    rw [List.filter_filter]
    rw [← hunique]
    apply List.filter_congr
    intro o ho
    by_cases hu : o.is_undone
    · simp [hu]
    · by_cases hrid : o.record_id = op.record_id
      · have hoeq : o = op := by
          have hmem2 : o ∈ sess.ops.filter (fun o =>
              !o.is_undone && o.record_id == op.record_id) :=
            List.mem_filter.mpr ⟨ho, by simp [hu, hrid]⟩
          rw [hunique] at hmem2
          exact List.mem_singleton.mp hmem2
        subst hoeq
        rcases htype with h | h | h <;> simp [h, hu, hrid]
      · simp [hu, hrid]

/-- Witness for C7: discarding a session that created `recC` and updated
`rec1` removes `recC` from storage and restores `rec1`'s before snapshot. -/
theorem c7_discard_reverses_session_witness :
    opCreate ∈ sessDiscard.ops ∧ opCreate.is_undone = false ∧
    (SessionService.discard_session dbDiscard sessDiscard 9).toOption.map
        (fun x => (findRecord x.1 "rC", findRecord x.1 "r1", x.2.1.status)) =
      some (none,
            some (SessionService.discardTransform opUpd [("note", Val.vs "orig")] rec1),
            "discarded") := by
  obtain ⟨db', sess', n, hok, hst, _, _, hcre, _⟩ :=
    c7_discard_reverses_session dbDiscard sessDiscard 9 opCreate rfl (by decide) rfl
  obtain ⟨db2, sess2, n2, hok2, _, _, _, _, hmod⟩ :=
    c7_discard_reverses_session dbDiscard sessDiscard 9 opUpd rfl (by decide) rfl
  have hdd : db2 = db' ∧ sess2 = sess' := by
    have := hok2.symm.trans hok
    simp only [Except.ok.injEq, Prod.mk.injEq] at this
    exact ⟨this.1, this.2.1⟩
  refine ⟨by decide, rfl, ?_⟩
  rw [hok]
  simp only [Except.toOption, Option.map]
  have h1 : findRecord db' "rC" = none := hcre rfl
  have h2 : findRecord db' "r1" =
      some (SessionService.discardTransform opUpd [("note", Val.vs "orig")] rec1) := by
    rw [← hdd.1]
    exact hmod (Or.inl rfl) [("note", Val.vs "orig")] rec1 rfl (by decide) (by decide) (by decide)
  rw [h1, h2, hst]

lemma findRecord_trio_update (db : DB) (rid : String) (f : Record → Record)
    (hf : ∀ r, recTrio (f r) = recTrio r) (rid' : String) :
    (findRecord (updateRecordStore db rid f) rid').map recTrio =
      (findRecord db rid').map recTrio := by
  have hfid : ∀ r, (f r).id = r.id := fun r => congrArg Prod.fst (hf r)
  by_cases hq : rid' = rid
  · subst hq
    rw [findRecord_update_self db rid' f hfid]
    cases findRecord db rid' with
    | none => rfl
    | some r => simp [hf r]
  · rw [findRecord_update_other db rid rid' f hfid hq]

lemma undo_trio_frame (db : DB) (sess : Session) (user : User) (now : Nat)
    (db' : DB) (sess' : Session)
    (h : SessionService.undo_operation db sess user now = .ok (db', sess')) (rid : String) :
    (findRecord db' rid).map recTrio = (findRecord db rid).map recTrio := by
  unfold SessionService.undo_operation at h
  by_cases h1 : sess.status ≠ "active"
  · rw [if_pos h1] at h
    simp at h
  · rw [if_neg h1] at h
    cases hop : SessionService.lastNonUndone sess.ops with
    | none =>
      rw [hop] at h
      simp at h
    | some op =>
      rw [hop] at h
      dsimp only at h
      set sess1 : Session := { sess with ops := sess.ops.map (fun o =>
        if o.sequence = op.sequence then { o with is_undone := true, undone_at := some now }
        else o) } with hsess1
      cases hmsg : SessionService.add_message sess1
          ("Undo: " ++ op.operation_type ++ " operation reverted") "system" now with
      | error e =>
        rw [hmsg] at h
        simp at h
      | ok pr =>
        obtain ⟨s2, m⟩ := pr
        rw [hmsg] at h
        dsimp only at h
        simp only [Except.ok.injEq, Prod.mk.injEq] at h
        obtain ⟨hdb, _⟩ := h
        rw [← hdb]
        by_cases ht1 : op.operation_type = "create"
        · rw [if_pos ht1]
          cases hrec : findRecord db op.record_id with
          | none => rfl
          | some r =>
            dsimp only
            apply findRecord_trio_update
            intro r2
            rfl
        · rw [if_neg ht1]
          by_cases ht2 : op.operation_type = "delete"
          · rw [if_pos ht2]
            cases hrec : findRecord db op.record_id with
            | none => rfl
            | some r =>
              dsimp only
              apply findRecord_trio_update
              intro r2
              rfl
          · rw [if_neg ht2]
            by_cases ht3 : op.operation_type = "update" ∨ op.operation_type = "transfer"
            · rw [if_pos ht3]
              cases hrec : findRecord db op.record_id with
              | none =>
                cases op.before_snapshot <;> rfl
              | some r =>
                try dsimp only
                cases hbs : op.before_snapshot with
                | none => rfl
                | some s =>
                  try dsimp only
                  by_cases hse : s = []
                  · rw [if_pos hse]
                  · rw [if_neg hse]
                    apply findRecord_trio_update
                    intro r2
                    unfold recTrio
                    rw [sess_apply_snapshot_id, sess_apply_snapshot_workspace,
                        sess_apply_snapshot_version]
            · rw [if_neg ht3]

lemma redo_trio_frame (db : DB) (sess : Session) (user : User) (now : Nat)
    (db' : DB) (sess' : Session)
    (h : SessionService.redo_operation db sess user now = .ok (db', sess')) (rid : String) :
    (findRecord db' rid).map recTrio = (findRecord db rid).map recTrio := by
  unfold SessionService.redo_operation at h
  by_cases h1 : sess.status ≠ "active"
  · rw [if_pos h1] at h
    simp at h
  · rw [if_neg h1] at h
    cases hop : SessionService.firstUndone sess.ops with
    | none =>
      rw [hop] at h
      simp at h
    | some op =>
      rw [hop] at h
      dsimp only at h
      set sess1 : Session := { sess with ops := sess.ops.map (fun o =>
        if o.sequence = op.sequence then { o with is_undone := false, undone_at := none }
        else o) } with hsess1
      cases hmsg : SessionService.add_message sess1
          ("Redo: " ++ op.operation_type ++ " operation reapplied") "system" now with
      | error e =>
        rw [hmsg] at h
        simp at h
      | ok pr =>
        obtain ⟨s2, m⟩ := pr
        rw [hmsg] at h
        dsimp only at h
        simp only [Except.ok.injEq, Prod.mk.injEq] at h
        obtain ⟨hdb, _⟩ := h
        rw [← hdb]
        by_cases ht1 : op.operation_type = "create"
        · rw [if_pos ht1]
          cases hrec : findRecord db op.record_id with
          | none => rfl
          | some r =>
            dsimp only
            apply findRecord_trio_update
            intro r2
            rfl
        · rw [if_neg ht1]
          by_cases ht2 : op.operation_type = "delete"
          · rw [if_pos ht2]
            cases hrec : findRecord db op.record_id with
            | none => rfl
            | some r =>
              dsimp only
              apply findRecord_trio_update
              intro r2
              rfl
          · rw [if_neg ht2]
            by_cases ht3 : op.operation_type = "update" ∨ op.operation_type = "transfer"
            · rw [if_pos ht3]
              cases hrec : findRecord db op.record_id with
              | none => rfl
              | some r =>
                dsimp only
                apply findRecord_trio_update
                intro r2
                unfold recTrio
                rw [sess_apply_snapshot_id, sess_apply_snapshot_workspace,
                    sess_apply_snapshot_version]
            · rw [if_neg ht3]

/-- C9: the session engine's snapshot application never writes `id`,
`workspace_id` or `version` (the code's explicit exclusion list), and undo
and redo leave every record's id, workspace and version unchanged at every
store id: their field rewrites are invisible to version-based conflict
detection. -/
theorem c9_undo_redo_version_frame (db : DB) (sess : Session) (user : User) (now : Nat) :
    (∀ (r : Record) (s : Smap),
      (SessionService.apply_snapshot r s).id = r.id ∧
      (SessionService.apply_snapshot r s).workspace_id = r.workspace_id ∧
      (SessionService.apply_snapshot r s).version = r.version) ∧
    (∀ db' sess', SessionService.undo_operation db sess user now = .ok (db', sess') →
      ∀ rid, (findRecord db' rid).map recTrio = (findRecord db rid).map recTrio) ∧
    (∀ db' sess', SessionService.redo_operation db sess user now = .ok (db', sess') →
      ∀ rid, (findRecord db' rid).map recTrio = (findRecord db rid).map recTrio) :=
  ⟨fun r s => ⟨sess_apply_snapshot_id r s, sess_apply_snapshot_workspace r s,
     sess_apply_snapshot_version r s⟩,
   fun db' sess' h rid => undo_trio_frame db sess user now db' sess' h rid,
   fun db' sess' h rid => redo_trio_frame db sess user now db' sess' h rid⟩

/-- Witness for C9: the concrete undo of the C4 witness leaves `rec1`'s
id, workspace and version untouched. -/
theorem c9_undo_redo_version_frame_witness :
    (SessionService.undo_operation db1 sessOps user1 7).toOption.map
        (fun x => (findRecord x.1 "r1").map recTrio) =
      some ((findRecord db1 "r1").map recTrio) := by
  have hsome : (SessionService.undo_operation db1 sessOps user1 7).toOption.isSome = true := by
    decide
  cases hres : SessionService.undo_operation db1 sessOps user1 7 with
  | error e =>
    rw [hres] at hsome
    simp [Except.toOption] at hsome
  | ok pr =>
    obtain ⟨db', sess'⟩ := pr
    have hfr := (c9_undo_redo_version_frame db1 sessOps user1 7).2.1 db' sess' hres "r1"
    exact congrArg some hfr

lemma findRecord_id (db : DB) (rid : String) (r : Record)
    (h : findRecord db rid = some r) : r.id = rid := by
  unfold findRecord at h
  have := List.find?_some h
  simpa using this

lemma commitApply_none_pres (user : User) (now : Nat) (d : DB) (lock : Lock) (rid : String)
    (h : findRecord d rid = none) :
    findRecord (SessionService.commitApply user now d lock) rid = none := by
  unfold SessionService.commitApply
  cases hf : findRecord d lock.record_id with
  | none => exact h
  | some r =>
    by_cases hq : rid = lock.record_id
    · rw [hq] at h
      rw [h] at hf
      cases hf
    · rw [findRecord_update_other d lock.record_id rid _ (commitTransform_id user now _) hq]
      exact h

lemma commitFold_none_pres (user : User) (now : Nat) (locks : List Lock) (db : DB)
    (rid : String) (h : findRecord db rid = none) :
    findRecord (locks.foldl (SessionService.commitApply user now) db) rid = none := by
  induction locks generalizing db with
  | nil => exact h
  | cons l locks ih => exact ih _ (commitApply_none_pres user now db l rid h)

lemma resolveFold_id_of_missing (db : DB) (rs : List SessionService.ConflictResolution)
    (lks : List Lock)
    (h : ∀ res ∈ rs, findRecord db res.record_id = none ∨ findLock lks res.record_id = none) :
    rs.foldl (SessionService.applyResolution db) lks = lks := by
  induction rs with
  | nil => rfl
  | cons res rs ih =>
    rw [List.foldl_cons]
    have hstep : SessionService.applyResolution db lks res = lks := by
      unfold SessionService.applyResolution
      rcases h res (List.mem_cons_self res rs) with hr | hl
      · rw [hr]
        cases lks.find? (fun l => l.record_id == res.record_id) <;> rfl
      · unfold findLock at hl
        rw [hl]
      done
    rw [hstep]
    exact ih (fun q hq => h q (List.mem_cons_of_mem res hq))

lemma commit_error_conflict_only (db : DB) (sess : Session) (user : User)
    (message : Option String) (now : Nat) (hact : sess.status = "active") :
    ∀ e, SessionService.commit_session db sess user message now = .error e →
      ∃ cs, e = Err.conflict cs := by
  intro e he
  unfold SessionService.commit_session at he
  rw [if_neg (fun hc => hc hact)] at he
  by_cases hc : SessionService.check_conflicts db sess ≠ []
  · rw [if_pos hc] at he
    simp only [Except.error.injEq] at he
    exact ⟨_, he.symm⟩
  · rw [if_neg hc] at he
    cases he

/-- C10: a draft overlay whose record id is absent from the store is
silently skipped everywhere: `check_conflicts` reports no conflict for it,
`commit_session` succeeds while applying nothing for it (the id stays
absent), `resolve_conflicts` ignores every resolution naming a missing
record or a missing lock, and neither commit nor resolve can raise the
NotFound error — under an active session their only error is CONFLICT. -/
theorem c10_missing_records_skipped (db : DB) (sess : Session) (user : User)
    (resolutions : List SessionService.ConflictResolution)
    (message : Option String) (now : Nat) (lock : Lock)
    (hact : sess.status = "active")
    (hmem : lock ∈ sess.locks)
    (hmiss : findRecord db lock.record_id = none) :
    (∀ c ∈ SessionService.check_conflicts db sess, c.record_id ≠ lock.record_id) ∧
    (SessionService.check_conflicts db sess = [] →
      ∃ db' sess' n,
        SessionService.commit_session db sess user message now = .ok (db', sess', n) ∧
        findRecord db' lock.record_id = none) ∧
    ((∀ res ∈ resolutions, findRecord db res.record_id = none ∨
        findLock sess.locks res.record_id = none) →
      SessionService.resolve_conflicts db sess user resolutions message now =
        SessionService.commit_session db sess user message now) ∧
    (∀ e, SessionService.commit_session db sess user message now = .error e →
      ∃ cs, e = Err.conflict cs) ∧
    (∀ e, SessionService.resolve_conflicts db sess user resolutions message now = .error e →
      ∃ cs, e = Err.conflict cs) := by
  refine ⟨?_, ?_, ?_, commit_error_conflict_only db sess user message now hact, ?_⟩
  · intro c hc hcid
    unfold SessionService.check_conflicts at hc
    obtain ⟨l, hl, hf⟩ := List.mem_filterMap.mp hc
    cases hrec : findRecord db l.record_id with
    | none =>
      rw [hrec] at hf
      dsimp only at hf
      cases hf
    | some record =>
      rw [hrec] at hf
      dsimp only at hf
      by_cases hv : record.version ≠ l.base_version
      · rw [if_pos hv] at hf
        simp only [Option.some.injEq] at hf
        rw [← hf] at hcid
        dsimp only at hcid
        rw [findRecord_id db l.record_id record hrec] at hcid
        rw [← hcid] at hmiss
        rw [hrec] at hmiss
        cases hmiss
      · rw [if_neg hv] at hf
        cases hf
  · intro hnil
    unfold SessionService.commit_session
    rw [if_neg (fun hc => hc hact), if_neg (fun hc => hc hnil)]
    exact ⟨_, _, _, rfl, commitFold_none_pres user now sess.locks db lock.record_id hmiss⟩
  · intro hres
    unfold SessionService.resolve_conflicts
    rw [if_neg (fun hc => hc hact), resolveFold_id_of_missing db resolutions sess.locks hres]
  · intro e he
    unfold SessionService.resolve_conflicts at he
    rw [if_neg (fun hc => hc hact)] at he
    exact commit_error_conflict_only db
      { sess with locks := resolutions.foldl (SessionService.applyResolution db) sess.locks }
      user message now hact e he

/-- Witness for C10: `sessDangling` holds an overlay on the absent id `rX`;
conflict check is empty, commit succeeds and `rX` stays absent. -/
theorem c10_missing_records_skipped_witness :
    SessionService.check_conflicts db1 sessDangling = [] ∧
    (SessionService.commit_session db1 sessDangling user1 none 5).toOption.map
        (fun x => findRecord x.1 "rX") = some none ∧
    SessionService.resolve_conflicts db1 sessDangling user1
        [⟨"rX", "keep_mine", none⟩] none 5 =
      SessionService.commit_session db1 sessDangling user1 none 5 := by
  obtain ⟨_, hcommit, hresolve, _, _⟩ :=
    c10_missing_records_skipped db1 sessDangling user1 [⟨"rX", "keep_mine", none⟩]
      none 5 ⟨"rX", [("note", Val.vs "z")], 1, 1⟩ rfl (by decide) (by decide)
  obtain ⟨db', sess', n, hok, hnone⟩ := hcommit (by decide)
  refine ⟨by decide, ?_, hresolve ?_⟩
  · rw [hok]
    exact congrArg some hnone
  · intro res hres
    have : res = ⟨"rX", "keep_mine", none⟩ := List.mem_singleton.mp hres
    rw [this]
    exact Or.inl (by decide)

lemma find?_map_update_self_at (l : List Record) (rid : String) (f : Record → Record)
    (hf : ∀ r, r.id = rid → (f r).id = rid) :
    (l.map (fun r => if r.id = rid then f r else r)).find? (fun r => r.id = rid) =
      (l.find? (fun r => r.id = rid)).map f := by
  induction l with
  | nil => rfl
  | cons a l ih =>
    by_cases h : a.id = rid
    · simp [List.find?, h, hf a h]
    · simp [List.find?, h, ih]

lemma find?_map_update_other_at (l : List Record) (rid rid' : String) (f : Record → Record)
    (hf : ∀ r, r.id = rid → (f r).id = rid) (hne : rid' ≠ rid) :
    (l.map (fun r => if r.id = rid then f r else r)).find? (fun r => r.id = rid') =
      l.find? (fun r => r.id = rid') := by
  induction l with
  | nil => rfl
  | cons a l ih =>
    by_cases h : a.id = rid
    · have hfa : ¬((f a).id = rid') := by
        rw [hf a h]
        exact fun hc => hne hc.symm
      have h3 : ¬(a.id = rid') := by
        rw [h]
        exact fun hc => hne hc.symm
      have h4 : ¬(rid = rid') := fun hc => hne hc.symm
      simp [List.find?, h, hfa, h3, h4, ih]
    · simp [List.find?, h, ih]

lemma findRecord_update_self_at (db : DB) (rid : String) (f : Record → Record)
    (hf : ∀ r, r.id = rid → (f r).id = rid) :
    findRecord (updateRecordStore db rid f) rid = (findRecord db rid).map f := by
  unfold findRecord updateRecordStore
  exact find?_map_update_self_at db.records rid f hf

lemma findRecord_update_other_at (db : DB) (rid rid' : String) (f : Record → Record)
    (hf : ∀ r, r.id = rid → (f r).id = rid) (hne : rid' ≠ rid) :
    findRecord (updateRecordStore db rid f) rid' = findRecord db rid' := by
  unfold findRecord updateRecordStore
  exact find?_map_update_other_at db.records rid rid' f hf hne

lemma find?_conj_of_find?_id (l : List Record) (rid wid : String) (r : Record)
    (hr : l.find? (fun x => x.id = rid) = some r) (hws : r.workspace_id = wid) :
    l.find? (fun x => x.id == rid && x.workspace_id == wid) = some r := by
  induction l with
  | nil => cases hr
  | cons a l ih =>
    by_cases h : a.id = rid
    · rw [List.find?_cons_of_pos _ (by simpa using h)] at hr
      have ha : a = r := by simpa using hr
      subst ha
      rw [List.find?_cons_of_pos _ (by simp [h, hws])]
    · rw [List.find?_cons_of_neg _ (by simpa using h)] at hr
      rw [List.find?_cons_of_neg _ (by simp [h])]
      exact ih hr

lemma get_record_of_findRecord (db : DB) (rid wid : String) (r : Record)
    (hr : findRecord db rid = some r) (hws : r.workspace_id = wid) :
    RecordService.get_record db rid wid = .ok r := by
  unfold RecordService.get_record
  rw [find?_conj_of_find?_id db.records rid wid r hr hws]

lemma restoreTarget_congr (la lb : List RecordVersion) (rid : String) (t : Nat)
    (h : la.filter (fun v => v.record_id == rid) = lb.filter (fun v => v.record_id == rid)) :
    RecordService.restoreTarget la rid t = RecordService.restoreTarget lb rid t := by
  unfold RecordService.restoreTarget
  have hc : ∀ l : List RecordVersion,
      l.filter (fun v => v.record_id == rid && decide (v.changed_at ≤ t)) =
        (l.filter (fun v => v.record_id == rid)).filter (fun v => decide (v.changed_at ≤ t)) := by
    intro l
    rw [List.filter_filter]
    apply List.filter_congr
    intro v _
    rw [Bool.and_comm]
  rw [hc, hc, h]

lemma earliestVersion_congr (la lb : List RecordVersion) (rid : String)
    (h : la.filter (fun v => v.record_id == rid) = lb.filter (fun v => v.record_id == rid)) :
    RecordService.earliestVersion la rid = RecordService.earliestVersion lb rid := by
  unfold RecordService.earliestVersion
  rw [h]

lemma rollbackRestore_id (user : User) (now : Nat) (r0 : Record) (rv : RecordVersion) :
    (rollbackRestore user now r0 rv).id = r0.id := rfl

lemma rollbackSoftDelete_id (user : User) (now : Nat) (r0 : Record) :
    (rollbackSoftDelete user now r0).id = r0.id := rfl

lemma processRecord_branches (db1 : DB) (target : RecordVersion) (user : User)
    (now : Nat) (wid rid : String) (r0 : Record)
    (hr0 : findRecord db1 rid = some r0) (hws : r0.workspace_id = wid) :
    ∃ db2 rP, RecordService.processRecord db1 target user now wid rid = .ok (db2, rP) ∧
      (∀ rv, RecordService.restoreTarget db1.versions rid target.changed_at = some rv →
        findRecord db2 rid = some (rollbackRestore user now r0 rv) ∧
        rP = some (rollbackRestore user now r0 rv) ∧
        db2.versions.filter (fun v => v.record_id == rid) =
          db1.versions.filter (fun v => v.record_id == rid) ++
            [RecordService.create_version (rollbackRestore user now r0 rv) user.id "rollback"
              (some ("Rollback to " ++ toString target.changed_at)) now]) ∧
      (RecordService.restoreTarget db1.versions rid target.changed_at = none →
        (∀ e, RecordService.earliestVersion db1.versions rid = some e →
          ((e.change_type = "create" ∧ target.changed_at < e.changed_at) →
            findRecord db2 rid = some (rollbackSoftDelete user now r0) ∧
            rP = some (rollbackSoftDelete user now r0) ∧
            db2.versions.filter (fun v => v.record_id == rid) =
              db1.versions.filter (fun v => v.record_id == rid) ++
                [RecordService.create_version (rollbackSoftDelete user now r0) user.id "rollback"
                  (some ("Rollback: record created after " ++ toString target.changed_at)) now]) ∧
          (¬(e.change_type = "create" ∧ target.changed_at < e.changed_at) →
            db2 = db1 ∧ rP = none)) ∧
        (RecordService.earliestVersion db1.versions rid = none → db2 = db1 ∧ rP = none)) ∧
      (∀ rid', rid' ≠ rid →
        findRecord db2 rid' = findRecord db1 rid' ∧
        db2.versions.filter (fun v => v.record_id == rid') =
          db1.versions.filter (fun v => v.record_id == rid')) := by
  have hid : r0.id = rid := findRecord_id db1 rid r0 hr0
  have hget : RecordService.get_record db1 rid wid = .ok r0 :=
    get_record_of_findRecord db1 rid wid r0 hr0 hws
  unfold RecordService.processRecord
  rw [hget]
  dsimp only
  cases hrt : RecordService.restoreTarget db1.versions rid target.changed_at with
  | some rv =>
    dsimp only
    refine ⟨_, _, rfl, ?_, ?_, ?_⟩
    · intro rv' hrv'
      cases hrv'
      have hfid : ∀ r : Record, r.id = rid → (rollbackRestore user now r0 rv).id = rid := by
        intro r _
        rw [rollbackRestore_id, hid]
      refine ⟨?_, rfl, ?_⟩
      · show findRecord (updateRecordStore db1 rid (fun _ => rollbackRestore user now r0 rv)) rid
          = some (rollbackRestore user now r0 rv)
        rw [findRecord_update_self_at db1 rid _ hfid, hr0]
        rfl
      · show ((updateRecordStore db1 rid _).versions ++
            [RecordService.create_version (rollbackRestore user now r0 rv) user.id "rollback"
              (some ("Rollback to " ++ toString target.changed_at)) now]).filter _ = _
        rw [updateRecordStore_versions, List.filter_append]
        congr 1
        simp [RecordService.create_version, rollbackRestore_id, hid]
    · intro h
      cases h
    · intro rid' hne
      have hfid : ∀ r : Record, r.id = rid → (rollbackRestore user now r0 rv).id = rid := by
        intro r _
        rw [rollbackRestore_id, hid]
      constructor
      · show findRecord (updateRecordStore db1 rid (fun _ => rollbackRestore user now r0 rv)) rid'
          = findRecord db1 rid'
        exact findRecord_update_other_at db1 rid rid' _ hfid hne
      · show ((updateRecordStore db1 rid _).versions ++
            [RecordService.create_version (rollbackRestore user now r0 rv) user.id "rollback"
              (some ("Rollback to " ++ toString target.changed_at)) now]).filter _ = _
        rw [updateRecordStore_versions, List.filter_append]
        have : (RecordService.create_version (rollbackRestore user now r0 rv) user.id "rollback"
              (some ("Rollback to " ++ toString target.changed_at)) now).record_id = rid := by
          simp [RecordService.create_version, rollbackRestore_id, hid]
        simp [this, hne, Ne.symm hne]
  | none =>
    dsimp only
    cases hev : RecordService.earliestVersion db1.versions rid with
    | some e =>
      dsimp only
      by_cases hcr : e.change_type = "create" ∧ target.changed_at < e.changed_at
      · rw [if_pos hcr]
        refine ⟨_, _, rfl, ?_, ?_, ?_⟩
        · intro rv' hrv'
          cases hrv'
        · intro _
          constructor
          · intro e' he'
            cases he'
            have hfid : ∀ r : Record, r.id = rid → (rollbackSoftDelete user now r0).id = rid := by
              intro r _
              rw [rollbackSoftDelete_id, hid]
            refine ⟨fun _ => ⟨?_, rfl, ?_⟩, fun hc => absurd hcr hc⟩
            · show findRecord (updateRecordStore db1 rid (fun _ => rollbackSoftDelete user now r0)) rid
                = some (rollbackSoftDelete user now r0)
              rw [findRecord_update_self_at db1 rid _ hfid, hr0]
              rfl
            · show ((updateRecordStore db1 rid _).versions ++
                  [RecordService.create_version (rollbackSoftDelete user now r0) user.id "rollback"
                    (some ("Rollback: record created after " ++ toString target.changed_at)) now]).filter _ = _
              rw [updateRecordStore_versions, List.filter_append]
              congr 1
              simp [RecordService.create_version, rollbackSoftDelete_id, hid]
          · intro hnone
            cases hnone
        · intro rid' hne
          have hfid : ∀ r : Record, r.id = rid → (rollbackSoftDelete user now r0).id = rid := by
            intro r _
            rw [rollbackSoftDelete_id, hid]
          constructor
          · show findRecord (updateRecordStore db1 rid (fun _ => rollbackSoftDelete user now r0)) rid'
              = findRecord db1 rid'
            exact findRecord_update_other_at db1 rid rid' _ hfid hne
          · show ((updateRecordStore db1 rid _).versions ++
                [RecordService.create_version (rollbackSoftDelete user now r0) user.id "rollback"
                  (some ("Rollback: record created after " ++ toString target.changed_at)) now]).filter _ = _
            rw [updateRecordStore_versions, List.filter_append]
            have : (RecordService.create_version (rollbackSoftDelete user now r0) user.id "rollback"
                  (some ("Rollback: record created after " ++ toString target.changed_at)) now).record_id = rid := by
              simp [RecordService.create_version, rollbackSoftDelete_id, hid]
            simp [this, hne, Ne.symm hne]
      · rw [if_neg hcr]
        refine ⟨_, _, rfl, ?_, ?_, ?_⟩
        · intro rv' hrv'
          cases hrv'
        · intro _
          refine ⟨?_, ?_⟩
          · intro e' he'
            cases he'
            exact ⟨fun hc => absurd hc hcr, fun _ => ⟨rfl, rfl⟩⟩
          · intro hnone
            cases hnone
        · intro rid' _
          exact ⟨rfl, rfl⟩
    | none =>
      dsimp only
      refine ⟨_, _, rfl, ?_, ?_, ?_⟩
      · intro rv' hrv'
        cases hrv'
      · intro _
        refine ⟨?_, fun _ => ⟨rfl, rfl⟩⟩
        intro e' he'
        cases he'
      · intro rid' _
        exact ⟨rfl, rfl⟩

lemma processRecord_agree (db0 db : DB) (target : RecordVersion) (user : User)
    (now : Nat) (wid rid : String) (r0 : Record)
    (hr00 : findRecord db0 rid = some r0) (hws : r0.workspace_id = wid)
    (hfr : findRecord db rid = findRecord db0 rid)
    (hfl : db.versions.filter (fun v => v.record_id == rid) =
      db0.versions.filter (fun v => v.record_id == rid)) :
    ∃ db2 rP, RecordService.processRecord db target user now wid rid = .ok (db2, rP) ∧
      (∀ dbP rP0, RecordService.processRecord db0 target user now wid rid = .ok (dbP, rP0) →
        findRecord db2 rid = findRecord dbP rid ∧
        db2.versions.filter (fun v => v.record_id == rid) =
          dbP.versions.filter (fun v => v.record_id == rid)) ∧
      (∀ rid', rid' ≠ rid →
        findRecord db2 rid' = findRecord db rid' ∧
        db2.versions.filter (fun v => v.record_id == rid') =
          db.versions.filter (fun v => v.record_id == rid')) := by
  have hr0 : findRecord db rid = some r0 := by rw [hfr]; exact hr00
  obtain ⟨db2, rP, hok, hb1, hb2, hfrm⟩ :=
    processRecord_branches db target user now wid rid r0 hr0 hws
  obtain ⟨dbP0, rP0, hok0, hb01, hb02, _⟩ :=
    processRecord_branches db0 target user now wid rid r0 hr00 hws
  refine ⟨db2, rP, hok, ?_, hfrm⟩
  intro dbP rPx h
  rw [hok0] at h
  cases h
  have hrtc : RecordService.restoreTarget db.versions rid target.changed_at =
      RecordService.restoreTarget db0.versions rid target.changed_at :=
    restoreTarget_congr _ _ _ _ hfl
  have hevc : RecordService.earliestVersion db.versions rid =
      RecordService.earliestVersion db0.versions rid :=
    earliestVersion_congr _ _ _ hfl
  cases hrt0 : RecordService.restoreTarget db0.versions rid target.changed_at with
  | some rv =>
    have hrt : RecordService.restoreTarget db.versions rid target.changed_at = some rv := by
      rw [hrtc, hrt0]
    obtain ⟨hf2, _, hl2⟩ := hb1 rv hrt
    obtain ⟨hf0, _, hl0⟩ := hb01 rv hrt0
    exact ⟨by rw [hf2, hf0], by rw [hl2, hl0, hfl]⟩
  | none =>
    have hrt : RecordService.restoreTarget db.versions rid target.changed_at = none := by
      rw [hrtc, hrt0]
    obtain ⟨hbe, hbn⟩ := hb2 hrt
    obtain ⟨hbe0, hbn0⟩ := hb02 hrt0
    cases hev0 : RecordService.earliestVersion db0.versions rid with
    | some ev =>
      have hev : RecordService.earliestVersion db.versions rid = some ev := by
        rw [hevc, hev0]
      obtain ⟨hy2, hn2⟩ := hbe ev hev
      obtain ⟨hy0, hn0⟩ := hbe0 ev hev0
      by_cases hcr : ev.change_type = "create" ∧ target.changed_at < ev.changed_at
      · obtain ⟨hf2, _, hl2⟩ := hy2 hcr
        obtain ⟨hf0, _, hl0⟩ := hy0 hcr
        exact ⟨by rw [hf2, hf0], by rw [hl2, hl0, hfl]⟩
      · obtain ⟨hdb2, _⟩ := hn2 hcr
        obtain ⟨hdb0, _⟩ := hn0 hcr
        subst hdb2
        subst hdb0
        exact ⟨hfr, hfl⟩
    | none =>
      have hev : RecordService.earliestVersion db.versions rid = none := by
        rw [hevc, hev0]
      obtain ⟨hdb2, _⟩ := hbn hev
      obtain ⟨hdb0, _⟩ := hbn0 hev0
      subst hdb2
      subst hdb0
      exact ⟨hfr, hfl⟩

lemma rollbackLoop_nil (target : RecordVersion) (user : User) (now : Nat) (wid : String)
    (db : DB) (ps : List String) (restored : List Record) :
    RecordService.rollbackLoop target user now wid db ps restored [] = .ok (db, restored) := rfl

lemma rollbackLoop_cons (target : RecordVersion) (user : User) (now : Nat) (wid : String)
    (db : DB) (ps : List String) (restored : List Record) (ver : RecordVersion)
    (rest : List RecordVersion) :
    RecordService.rollbackLoop target user now wid db ps restored (ver :: rest) =
      if ver.record_id ∈ ps then
        RecordService.rollbackLoop target user now wid db ps restored rest
      else
        match RecordService.processRecord db target user now wid ver.record_id with
        | .error e => .error e
        | .ok (db', rec?) =>
          RecordService.rollbackLoop target user now wid db' (ver.record_id :: ps)
            (match rec? with
             | some r => restored ++ [r]
             | none => restored) rest := rfl

lemma rollbackLoop_invariant (db0 : DB) (target : RecordVersion) (user : User)
    (now : Nat) (wid : String) (entries : List RecordVersion) :
    ∀ (db : DB) (ps : List String) (restored : List Record),
      (∀ e ∈ entries, ∃ r, findRecord db0 e.record_id = some r ∧ r.workspace_id = wid) →
      (∀ rid, rid ∉ ps →
        findRecord db rid = findRecord db0 rid ∧
        db.versions.filter (fun v => v.record_id == rid) =
          db0.versions.filter (fun v => v.record_id == rid)) →
      ∃ dbf restf,
        RecordService.rollbackLoop target user now wid db ps restored entries =
          .ok (dbf, restf) ∧
        (∀ rid, rid ∉ ps → (∀ e ∈ entries, e.record_id ≠ rid) →
          findRecord dbf rid = findRecord db0 rid ∧
          dbf.versions.filter (fun v => v.record_id == rid) =
            db0.versions.filter (fun v => v.record_id == rid)) ∧
        (∀ rid, rid ∈ ps →
          findRecord dbf rid = findRecord db rid ∧
          dbf.versions.filter (fun v => v.record_id == rid) =
            db.versions.filter (fun v => v.record_id == rid)) ∧
        (∀ rid, rid ∉ ps → (∃ e ∈ entries, e.record_id = rid) →
          ∀ dbP rP, RecordService.processRecord db0 target user now wid rid = .ok (dbP, rP) →
            findRecord dbf rid = findRecord dbP rid ∧
            dbf.versions.filter (fun v => v.record_id == rid) =
              dbP.versions.filter (fun v => v.record_id == rid)) := by
  induction entries with
  | nil =>
    intro db ps restored _ hinv
    refine ⟨db, restored, rollbackLoop_nil target user now wid db ps restored, ?_, ?_, ?_⟩
    · intro rid hps _
      exact hinv rid hps
    · intro rid _
      exact ⟨rfl, rfl⟩
    · rintro rid _ ⟨e, he, _⟩ dbP rP _
      cases he
  | cons e rest ih =>
    intro db ps restored hent hinv
    by_cases hmem : e.record_id ∈ ps
    · obtain ⟨dbf, restf, hloop, hA, hB, hC⟩ :=
        ih db ps restored (fun e' he' => hent e' (List.mem_cons_of_mem _ he')) hinv
      refine ⟨dbf, restf, ?_, ?_, hB, ?_⟩
      · rw [rollbackLoop_cons, if_pos hmem]
        exact hloop
      · intro rid hps hne
        exact hA rid hps (fun e' he' => hne e' (List.mem_cons_of_mem _ he'))
      · rintro rid hps ⟨e', he', hid'⟩ dbP rP hok
        rcases List.mem_cons.mp he' with rfl | hrest
        · exact absurd (hid' ▸ hmem) hps
        · exact hC rid hps ⟨e', hrest, hid'⟩ dbP rP hok
    · obtain ⟨r0, hr00, hws⟩ := hent e (List.mem_cons_self e rest)
      obtain ⟨hfr, hfl⟩ := hinv e.record_id hmem
      obtain ⟨db2, rP2, hok2, hOUT, hfrm⟩ :=
        processRecord_agree db0 db target user now wid e.record_id r0 hr00 hws hfr hfl
      have hinv2 : ∀ rid, rid ∉ e.record_id :: ps →
          findRecord db2 rid = findRecord db0 rid ∧
          db2.versions.filter (fun v => v.record_id == rid) =
            db0.versions.filter (fun v => v.record_id == rid) := by
        intro rid hrid
        have hne : rid ≠ e.record_id := fun hc => hrid (hc ▸ List.mem_cons_self _ _)
        have hps : rid ∉ ps := fun hc => hrid (List.mem_cons_of_mem _ hc)
        obtain ⟨h1, h2⟩ := hfrm rid hne
        obtain ⟨h3, h4⟩ := hinv rid hps
        exact ⟨h1.trans h3, h2.trans h4⟩
      rcases rP2 with _ | r
      · obtain ⟨dbf, restf, hloop, hA', hB', hC'⟩ :=
          ih db2 (e.record_id :: ps) restored
            (fun e' he' => hent e' (List.mem_cons_of_mem _ he')) hinv2
        refine ⟨dbf, restf, ?_, ?_, ?_, ?_⟩
        · rw [rollbackLoop_cons, if_neg hmem, hok2]
          exact hloop
        · intro rid hps hnone
          have hne : e.record_id ≠ rid := hnone e (List.mem_cons_self e rest)
          have hrid : rid ∉ e.record_id :: ps := by
            intro hc
            rcases List.mem_cons.mp hc with h | h
            · exact hne h.symm
            · exact hps h
          exact hA' rid hrid (fun e' he' => hnone e' (List.mem_cons_of_mem _ he'))
        · intro rid hrid
          have hne : rid ≠ e.record_id := fun hc => hmem (hc ▸ hrid)
          obtain ⟨h1, h2⟩ := hB' rid (List.mem_cons_of_mem _ hrid)
          obtain ⟨h3, h4⟩ := hfrm rid hne
          exact ⟨h1.trans h3, h2.trans h4⟩
        · rintro rid hps ⟨e', he', hid'⟩ dbP rP hok
          by_cases heq : rid = e.record_id
          · subst heq
            obtain ⟨h1, h2⟩ := hB' e.record_id (List.mem_cons_self _ _)
            obtain ⟨h3, h4⟩ := hOUT dbP rP hok
            exact ⟨h1.trans h3, h2.trans h4⟩
          · have hrid : rid ∉ e.record_id :: ps := by
              intro hc
              rcases List.mem_cons.mp hc with h | h
              · exact heq h
              · exact hps h
            rcases List.mem_cons.mp he' with rfl | hrest
            · exact absurd hid' (fun hc => heq hc.symm)
            · exact hC' rid hrid ⟨e', hrest, hid'⟩ dbP rP hok
      · obtain ⟨dbf, restf, hloop, hA', hB', hC'⟩ :=
          ih db2 (e.record_id :: ps) (restored ++ [r])
            (fun e' he' => hent e' (List.mem_cons_of_mem _ he')) hinv2
        refine ⟨dbf, restf, ?_, ?_, ?_, ?_⟩
        · rw [rollbackLoop_cons, if_neg hmem, hok2]
          exact hloop
        · intro rid hps hnone
          have hne : e.record_id ≠ rid := hnone e (List.mem_cons_self e rest)
          have hrid : rid ∉ e.record_id :: ps := by
            intro hc
            rcases List.mem_cons.mp hc with h | h
            · exact hne h.symm
            · exact hps h
          exact hA' rid hrid (fun e' he' => hnone e' (List.mem_cons_of_mem _ he'))
        · intro rid hrid
          have hne : rid ≠ e.record_id := fun hc => hmem (hc ▸ hrid)
          obtain ⟨h1, h2⟩ := hB' rid (List.mem_cons_of_mem _ hrid)
          obtain ⟨h3, h4⟩ := hfrm rid hne
          exact ⟨h1.trans h3, h2.trans h4⟩
        · rintro rid hps ⟨e', he', hid'⟩ dbP rP hok
          by_cases heq : rid = e.record_id
          · subst heq
            obtain ⟨h1, h2⟩ := hB' e.record_id (List.mem_cons_self _ _)
            obtain ⟨h3, h4⟩ := hOUT dbP rP hok
            exact ⟨h1.trans h3, h2.trans h4⟩
          · have hrid : rid ∉ e.record_id :: ps := by
              intro hc
              rcases List.mem_cons.mp hc with h | h
              · exact heq h
              · exact hps h
            rcases List.mem_cons.mp he' with rfl | hrest
            · exact absurd hid' (fun hc => heq hc.symm)
            · exact hC' rid hrid ⟨e', hrest, hid'⟩ dbP rP hok

lemma rollback_unfold (db : DB) (wid vid : String) (user : User) (now : Nat)
    (target : RecordVersion)
    (htarget : db.versions.find? (fun v => v.id == vid) = some target) :
    RecordService.rollback_to_version db wid vid user now =
      RecordService.rollbackLoop target user now wid db [] []
        ((db.versions.filter (fun v =>
          (match findRecord db v.record_id with
           | some r => r.workspace_id == wid
           | none => false) && decide (target.changed_at < v.changed_at))).insertionSort
            (fun a b => b.changed_at ≤ a.changed_at)) := by
  unfold RecordService.rollback_to_version
  rw [htarget]

/-- **C8.** `rollback_to_version`: every record of the workspace that has a
version entry dated after the target entry is put through the three-way
branch, and its slice of the version log is extended by at most one entry
(it is processed exactly once): if a version entry at or before the target
timestamp exists for the record, that snapshot is re-applied (stamped by
the acting user, version bumped by one) and a `change_type="rollback"`
entry is appended; if none exists and the record's earliest entry is a
`create` dated after the target, the record is soft-deleted (again with a
rollback entry); otherwise — the earliest entry predates the target, i.e.
history was cleared — the record is left untouched and its log slice is
unchanged. -/
theorem c8_rollback_three_way_branch (db : DB) (wid vid : String) (user : User)
    (now : Nat) (target : RecordVersion) (rid : String) (r0 : Record)
    (htarget : db.versions.find? (fun v => v.id == vid) = some target)
    (hr0 : findRecord db rid = some r0)
    (hws : r0.workspace_id = wid)
    (haff : ∃ v ∈ db.versions, v.record_id = rid ∧ target.changed_at < v.changed_at) :
    ∃ db' restored,
      RecordService.rollback_to_version db wid vid user now = .ok (db', restored) ∧
      (∀ rv, RecordService.restoreTarget db.versions rid target.changed_at = some rv →
        findRecord db' rid = some (rollbackRestore user now r0 rv) ∧
        (rollbackRestore user now r0 rv).version = r0.version + 1 ∧
        db'.versions.filter (fun v => v.record_id == rid) =
          db.versions.filter (fun v => v.record_id == rid) ++
            [RecordService.create_version (rollbackRestore user now r0 rv) user.id "rollback"
              (some ("Rollback to " ++ toString target.changed_at)) now]) ∧
      (RecordService.restoreTarget db.versions rid target.changed_at = none →
        ∀ e, RecordService.earliestVersion db.versions rid = some e →
          ((e.change_type = "create" ∧ target.changed_at < e.changed_at →
            findRecord db' rid = some (rollbackSoftDelete user now r0) ∧
            (rollbackSoftDelete user now r0).version = r0.version + 1 ∧
            db'.versions.filter (fun v => v.record_id == rid) =
              db.versions.filter (fun v => v.record_id == rid) ++
                [RecordService.create_version (rollbackSoftDelete user now r0) user.id "rollback"
                  (some ("Rollback: record created after " ++ toString target.changed_at)) now]) ∧
          (¬(e.change_type = "create" ∧ target.changed_at < e.changed_at) →
            findRecord db' rid = some r0 ∧
            db'.versions.filter (fun v => v.record_id == rid) =
              db.versions.filter (fun v => v.record_id == rid)))) := by
  have hperm := List.perm_insertionSort (fun a b : RecordVersion => b.changed_at ≤ a.changed_at)
    (db.versions.filter (fun v =>
      (match findRecord db v.record_id with
       | some r => r.workspace_id == wid
       | none => false) && decide (target.changed_at < v.changed_at)))
  have hent : ∀ e ∈ (db.versions.filter (fun v =>
      (match findRecord db v.record_id with
       | some r => r.workspace_id == wid
       | none => false) && decide (target.changed_at < v.changed_at))).insertionSort
        (fun a b => b.changed_at ≤ a.changed_at),
      ∃ r, findRecord db e.record_id = some r ∧ r.workspace_id = wid := by
    intro e he
    have hev := hperm.mem_iff.mp he
    obtain ⟨_, hpred⟩ := List.mem_filter.mp hev
    simp only [Bool.and_eq_true] at hpred
    have h1 := hpred.1
    cases hfind : findRecord db e.record_id with
    | none =>
      rw [hfind] at h1
      cases h1
    | some r =>
      rw [hfind] at h1
      simp only at h1
      exact ⟨r, rfl, by simpa using h1⟩
  have hin : ∃ e ∈ (db.versions.filter (fun v =>
      (match findRecord db v.record_id with
       | some r => r.workspace_id == wid
       | none => false) && decide (target.changed_at < v.changed_at))).insertionSort
        (fun a b => b.changed_at ≤ a.changed_at), e.record_id = rid := by
    obtain ⟨v, hv, hvid, hvafter⟩ := haff
    refine ⟨v, ?_, hvid⟩
    apply hperm.mem_iff.mpr
    apply List.mem_filter.mpr
    refine ⟨hv, ?_⟩
    simp [hvid, hr0, hws, hvafter]
  obtain ⟨dbf, restf, hloop, hA, hB, hC⟩ :=
    rollbackLoop_invariant db target user now wid
      ((db.versions.filter (fun v =>
        (match findRecord db v.record_id with
         | some r => r.workspace_id == wid
         | none => false) && decide (target.changed_at < v.changed_at))).insertionSort
          (fun a b => b.changed_at ≤ a.changed_at))
      db [] [] hent (fun rid' _ => ⟨rfl, rfl⟩)
  obtain ⟨dbP, rP, hokP, hbP1, hbP2, _⟩ :=
    processRecord_branches db target user now wid rid r0 hr0 hws
  obtain ⟨hcf, hcl⟩ := hC rid (List.not_mem_nil rid) hin dbP rP hokP
  refine ⟨dbf, restf, ?_, ?_, ?_⟩
  · rw [rollback_unfold db wid vid user now target htarget]
    exact hloop
  · intro rv hrv
    obtain ⟨hf, _, hl⟩ := hbP1 rv hrv
    refine ⟨hcf.trans hf, ?_, hcl.trans hl⟩
    show (RecordService.apply_snapshot r0 rv.snapshot).version + 1 = r0.version + 1
    rw [rec_apply_snapshot_version]
  · intro hnone e he
    obtain ⟨hbe, _⟩ := hbP2 hnone
    obtain ⟨hy, hn⟩ := hbe e he
    constructor
    · intro hcr
      obtain ⟨hf, _, hl⟩ := hy hcr
      exact ⟨hcf.trans hf, rfl, hcl.trans hl⟩
    · intro hcr
      obtain ⟨hdb, _⟩ := hn hcr
      subst hdb
      exact ⟨hcf.trans hr0, hcl⟩

/-- Witness for C8: in the rollback store, rolling back to `ver1` restores
`rec1b` from `ver1`'s snapshot and appends a rollback entry, while rolling
back to `ver0` (predating `rec1`'s creation) soft-deletes it. -/
theorem c8_rollback_three_way_branch_witness :
    RecordService.restoreTarget dbRoll.versions "r1" ver1.changed_at = some ver1 ∧
    (∃ db' restored,
      RecordService.rollback_to_version dbRoll "w1" "v1" user1 30 = .ok (db', restored) ∧
      findRecord db' "r1" = some (rollbackRestore user1 30 rec1b ver1) ∧
      (rollbackRestore user1 30 rec1b ver1).version = rec1b.version + 1 ∧
      db'.versions.filter (fun v => v.record_id == "r1") =
        dbRoll.versions.filter (fun v => v.record_id == "r1") ++
          [RecordService.create_version (rollbackRestore user1 30 rec1b ver1) user1.id "rollback"
            (some ("Rollback to " ++ toString ver1.changed_at)) 30]) ∧
    RecordService.restoreTarget dbRoll.versions "r1" ver0.changed_at = none ∧
    (∃ db' restored,
      RecordService.rollback_to_version dbRoll "w1" "v0" user1 30 = .ok (db', restored) ∧
      findRecord db' "r1" = some (rollbackSoftDelete user1 30 rec1b)) := by
  obtain ⟨dbA, restA, hokA, hbA, _⟩ :=
    c8_rollback_three_way_branch dbRoll "w1" "v1" user1 30 ver1 "r1" rec1b
      (by decide) (by decide) rfl ⟨ver2, by decide, rfl, by decide⟩
  obtain ⟨dbB, restB, hokB, _, hbB⟩ :=
    c8_rollback_three_way_branch dbRoll "w1" "v0" user1 30 ver0 "r1" rec1b
      (by decide) (by decide) rfl ⟨ver1, by decide, rfl, by decide⟩
  obtain ⟨hfA, hvA, hlA⟩ := hbA ver1 (by decide)
  obtain ⟨hfB, _, _⟩ := (hbB (by decide) ver1 (by decide)).1 (by decide)
  exact ⟨by decide, ⟨dbA, restA, hokA, hfA, hvA, hlA⟩, by decide,
    ⟨dbB, restB, hokB, hfB⟩⟩

end Forecasto
